import Mathlib

/-!
Shallow embedding of the bodgit/gc GameCube memory-card library.

Bytes are modelled as natural numbers below 256; machine-integer overflow
is made explicit with `% 2^w`.  Fixed-size Go arrays become Lean lists
whose length is tracked by hypotheses where a proof needs it.
-/

/-- Big-endian encoding of a 16-bit value as two bytes. -/
def be16 (v : Nat) : List Nat := [v / 2 ^ 8 % 256, v % 256]

/-- Big-endian encoding of a 32-bit value as four bytes. -/
def be32 (v : Nat) : List Nat :=
  [v / 2 ^ 24 % 256, v / 2 ^ 16 % 256, v / 2 ^ 8 % 256, v % 256]

/-- Big-endian encoding of a 64-bit value as eight bytes. -/
def be64 (v : Nat) : List Nat :=
  [v / 2 ^ 56 % 256, v / 2 ^ 48 % 256, v / 2 ^ 40 % 256, v / 2 ^ 32 % 256,
   v / 2 ^ 24 % 256, v / 2 ^ 16 % 256, v / 2 ^ 8 % 256, v % 256]

/-- Big-endian 16-bit value of the first two bytes of a list. -/
def be16val (l : List Nat) : Nat := l.getD 0 0 * 256 + l.getD 1 0

/-- Big-endian 32-bit value of the first four bytes of a list. -/
def be32val (l : List Nat) : Nat :=
  ((l.getD 0 0 * 256 + l.getD 1 0) * 256 + l.getD 2 0) * 256 + l.getD 3 0

/-! ## internal/hash: the two-variant running 16-bit checksum digest -/

/-- One iteration of `digest.Write` from `internal/hash/hash.go`: the byte is
optionally XORed with 0xFF (inverted variant), shifted left by `pos * 8` bits
and added into the 16-bit accumulator with wraparound; `pos` alternates
between 1 and 0, starting (after `Reset`) at 1. -/
def digestStep (inverted : Bool) (st : Nat × Nat) (b : Nat) : Nat × Nat :=
  let t := if inverted then Nat.xor b 0xff else b
  ((st.1 + t * 2 ^ (8 * st.2)) % 65536, (st.2 + 1) % 2)

/-- `digest.Write` over a whole byte list. -/
def digestWrite (inverted : Bool) (p : List Nat) (st : Nat × Nat) : Nat × Nat :=
  p.foldl (digestStep inverted) st

/-- `digest.Sum`: the accumulator as two big-endian bytes. -/
def digestSum (st : Nat × Nat) : List Nat := [st.1 / 256 % 256, st.1 % 256]

/-- `checksum` from the repository: both digest variants run over the same
input in one pass; a resulting 0xFFFF word is clamped to 0x0000. -/
def checksum (b : List Nat) : List Nat × List Nat :=
  let normal := digestSum (digestWrite false b (0, 1))
  let inverted := digestSum (digestWrite true b (0, 1))
  (if normal = [0xff, 0xff] then [0x00, 0x00] else normal,
   if inverted = [0xff, 0xff] then [0x00, 0x00] else inverted)

/-! ## Serial transform (`computeSerial` / `extractFlashID`) -/

/-- One LCG advance of the serial transform: multiply, add, truncate to
64 bits, shift right 16 bits. -/
def lcgNext (rand : Nat) : Nat := (rand * 1103515245 + 12345) % 2 ^ 64 / 2 ^ 16

/-- `computeSerial`: per byte, one LCG advance yields the additive delta and a
second LCG advance (masked to 15 bits) carries the state forward. -/
def computeSerial : List Nat → Nat → List Nat
  | [], _ => []
  | b :: rest, rand =>
    let r1 := lcgNext rand
    (b + r1 % 256) % 256 :: computeSerial rest (lcgNext r1 % 0x8000)

/-- `extractFlashID`: identical LCG sequence, byte-wise subtraction mod 256. -/
def extractFlashID : List Nat → Nat → List Nat
  | [], _ => []
  | b :: rest, rand =>
    let r1 := lcgNext rand
    (b + 256 - r1 % 256) % 256 :: extractFlashID rest (lcgNext r1 % 0x8000)

/-! ## Specification-side accumulator for the digest (C4) -/

/-- The checksum accumulator as the spec describes it: each byte (XORed with
0xFF in the inverted variant) is added shifted left by 8 bits at odd byte
positions and 0 bits at even positions, positions counted from 1 as the
bytes stream in (`pos` is the position of the next byte). -/
def digestSpecFrom (inverted : Bool) (pos : Nat) : List Nat → Nat
  | [] => 0
  | b :: rest =>
    (if inverted then Nat.xor b 0xff else b) * 2 ^ (8 * (pos % 2)) +
      digestSpecFrom inverted (pos + 1) rest

theorem digestSpecFrom_congr (inverted : Bool) :
    ∀ (l : List Nat) (p q : Nat), p % 2 = q % 2 →
      digestSpecFrom inverted p l = digestSpecFrom inverted q l := by
  intro l
  induction l with
  | nil => intro p q _; rfl
  | cons b rest ih =>
    intro p q h
    simp only [digestSpecFrom, h]
    rw [ih (p + 1) (q + 1) (by omega)]

theorem digestWrite_eq_spec (inverted : Bool) :
    ∀ (l : List Nat) (crc pos : Nat), crc < 65536 → pos < 2 →
      (digestWrite inverted l (crc, pos)).1 =
        (crc + digestSpecFrom inverted pos l) % 65536 := by
  intro l
  induction l with
  | nil =>
    intro crc pos h _
    simp [digestWrite, digestSpecFrom, Nat.mod_eq_of_lt h]
  | cons b rest ih =>
    intro crc pos h hp
    have hstep : digestWrite inverted (b :: rest) (crc, pos) =
        digestWrite inverted rest (digestStep inverted (crc, pos) b) := rfl
    rw [hstep]
    simp only [digestStep]
    rw [ih _ _ (Nat.mod_lt _ (by norm_num)) (Nat.mod_lt _ (by norm_num)),
      digestSpecFrom_congr inverted rest ((pos + 1) % 2) (pos + 1)
        (Nat.mod_mod_of_dvd (pos + 1) (dvd_refl 2)),
      Nat.mod_add_mod]
    have hpos : pos % 2 = pos := Nat.mod_eq_of_lt hp
    simp only [digestSpecFrom, hpos, Nat.add_assoc]

/-! ## Claims C1, C4, C5 -/

/-- Claim C1: for every 12-byte identifier and every 64-bit seed, extracting
the identifier from the computed serial with the same seed returns the
original identifier: `extractFlashID (computeSerial id seed) seed = id`. -/
theorem serial_round_trip (id : List Nat) (seed : Nat)
    (h : ∀ b ∈ id, b < 256) :
    extractFlashID (computeSerial id seed) seed = id := by
  induction id generalizing seed with
  | nil => rfl
  | cons b rest ih =>
    have hb : b < 256 := h b (List.mem_cons_self b rest)
    simp only [computeSerial, extractFlashID]
    have h1 : ((b + lcgNext seed % 256) % 256 + 256 - lcgNext seed % 256) % 256 = b := by
      have hk : lcgNext seed % 256 < 256 := Nat.mod_lt _ (by norm_num)
      omega
    rw [h1, ih _ (fun x hx => h x (List.mem_cons_of_mem b hx))]

/-- Witness for C1 at a concrete 12-byte identifier and seed. -/
theorem serial_round_trip_witness :
    extractFlashID
      (computeSerial [3, 1, 4, 1, 5, 9, 2, 6, 255, 0, 171, 205] 987654321)
      987654321 = [3, 1, 4, 1, 5, 9, 2, 6, 255, 0, 171, 205] :=
  serial_round_trip [3, 1, 4, 1, 5, 9, 2, 6, 255, 0, 171, 205] 987654321
    (by decide)

/-- Claim C4: both digest variants, run over the same input in one pass from
accumulator 0 (`Reset` makes the first byte position 1, i.e. odd), equal the
spec's accumulator: each byte (the inverted variant XORs it with 0xFF first)
is added into a 16-bit wraparound accumulator, left-shifted 8 bits at odd
byte positions and 0 bits at even positions (positions counted from 1). -/
theorem digest_matches_spec_accumulator (bs : List Nat) :
    (digestWrite false bs (0, 1)).1 = digestSpecFrom false 1 bs % 65536 ∧
      (digestWrite true bs (0, 1)).1 = digestSpecFrom true 1 bs % 65536 := by
  constructor
  · simpa using digestWrite_eq_spec false bs 0 1 (by norm_num) (by norm_num)
  · simpa using digestWrite_eq_spec true bs 0 1 (by norm_num) (by norm_num)

/-- Claim C5: `checksum` is a pure function (determinism is definitional in
this embedding) and neither of its two 2-byte results is ever 0xFFFF: a
digest output equal to 0xFFFF is clamped to 0x0000 before being returned. -/
theorem checksum_never_ffff (bs : List Nat) :
    (checksum bs).1 ≠ [0xff, 0xff] ∧ (checksum bs).2 ≠ [0xff, 0xff] ∧
      (digestSum (digestWrite false bs (0, 1)) = [0xff, 0xff] →
        (checksum bs).1 = [0x00, 0x00]) ∧
      (digestSum (digestWrite true bs (0, 1)) = [0xff, 0xff] →
        (checksum bs).2 = [0x00, 0x00]) := by
  simp only [checksum]
  refine ⟨?_, ?_, ?_, ?_⟩ <;> split <;> simp_all

/-! ## Binary records: directory entry, directory, block map, header -/

/-- Error taxonomy of the library, covering the sentinel errors declared in
the sources. -/
inductive CardErr where
  | badHeaderChecksum
  | badDirectoryChecksum
  | badBlockMapChecksum
  | invalidDirectoryCounters
  | invalidBlockMapCounters
  | invalidCapacity
  | invalidEncoding
  | trailingBytes
  | readHeader
  | readDirectory
  | readBlockMap
  | readBlock
deriving DecidableEq

/-- `entry`: one stored file of the directory.  Fixed-size byte arrays are
lists; 16/32-bit fields are naturals kept below their width by the
operations that produce them. -/
structure Entry where
  GameCode : List Nat
  MakerCode : List Nat
  BannerFormat : Nat
  Filename : List Nat
  LastModified : Nat
  ImageDataOffset : Nat
  IconGfxFormat : Nat
  AnimationSpeed : Nat
  Permissions : Nat
  CopyCounter : Nat
  FirstBlock : Nat
  FileLength : Nat
  CommentAddress : Nat
deriving DecidableEq

/-- `entry.isEmpty`: the game code is all-0xFF or all-0x00. -/
def Entry.isEmpty (e : Entry) : Bool :=
  e.GameCode == [0xff, 0xff, 0xff, 0xff] || e.GameCode == [0x00, 0x00, 0x00, 0x00]

/-- `entry.filename`: the stored 32-byte name with trailing zero bytes
trimmed. -/
def Entry.filename (e : Entry) : List Nat :=
  (e.Filename.reverse.dropWhile (· == 0)).reverse

/-- `entry.MarshalBinary`: 64 bytes; the pad byte at offset 6 and the two
reserved bytes at offset 0x3a are written as 0xFF. -/
def entryMarshal (e : Entry) : List Nat :=
  e.GameCode ++ e.MakerCode ++ [0xff, e.BannerFormat] ++ e.Filename ++
    be32 e.LastModified ++ be32 e.ImageDataOffset ++ be16 e.IconGfxFormat ++
    be16 e.AnimationSpeed ++ [e.Permissions, e.CopyCounter] ++
    be16 e.FirstBlock ++ be16 e.FileLength ++ [0xff, 0xff] ++
    be32 e.CommentAddress

/-- Big-endian 64-bit value of the first eight bytes of a list. -/
def be64val (l : List Nat) : Nat :=
  be32val l * 2 ^ 32 + be32val (l.drop 4)

/-- `binary.Read` of one `entry` from a 64-byte big-endian encoding. -/
def entryParse (l : List Nat) : Entry where
  GameCode := l.take 4
  MakerCode := (l.drop 4).take 2
  BannerFormat := l.getD 7 0
  Filename := (l.drop 8).take 32
  LastModified := be32val (l.drop 40)
  ImageDataOffset := be32val (l.drop 44)
  IconGfxFormat := be16val (l.drop 48)
  AnimationSpeed := be16val (l.drop 50)
  Permissions := l.getD 52 0
  CopyCounter := l.getD 53 0
  FirstBlock := be16val (l.drop 54)
  FileLength := be16val (l.drop 56)
  CommentAddress := be32val (l.drop 60)

/-- The Go zero value of `entry` (fresh directory slots). -/
def emptyEntry : Entry where
  GameCode := List.replicate 4 0
  MakerCode := List.replicate 2 0
  BannerFormat := 0
  Filename := List.replicate 32 0
  LastModified := 0
  ImageDataOffset := 0
  IconGfxFormat := 0
  AnimationSpeed := 0
  Permissions := 0
  CopyCounter := 0
  FirstBlock := 0
  FileLength := 0
  CommentAddress := 0

/-- `directory`: 127 entries, a 0x3a-byte reserved span, update counter and
the two checksum words. -/
structure Directory where
  Entries : List Entry
  UpdateCounter : Nat
  ChecksumNormal : List Nat
  ChecksumInverted : List Nat
deriving DecidableEq

/-- `directory.MarshalBinary`: entries, 0xFF-filled reserved span, counter,
checksums; 0x2000 bytes in total. -/
def directoryMarshal (d : Directory) : List Nat :=
  (d.Entries.map entryMarshal).flatten ++ List.replicate 58 0xff ++
    be16 d.UpdateCounter ++ d.ChecksumNormal ++ d.ChecksumInverted

/-- `directory.generateChecksums`: both checksum variants over the
serialization up to (excluding) the checksum fields. -/
def Directory.generateChecksums (d : Directory) : List Nat × List Nat :=
  checksum ((directoryMarshal d).take 8188)

/-- `directory.checksum`: store the freshly computed checksums. -/
def Directory.setChecksum (d : Directory) : Directory :=
  let c := d.generateChecksums
  { d with ChecksumNormal := c.1, ChecksumInverted := c.2 }

/-- `directory.isValid`. -/
def Directory.isValid (d : Directory) : Except CardErr Unit :=
  let c := d.generateChecksums
  if d.ChecksumNormal = c.1 ∧ d.ChecksumInverted = c.2 then .ok ()
  else .error .badDirectoryChecksum

/-- `binary.Read` of one `directory` from its 0x2000-byte encoding. -/
def dirParse (l : List Nat) : Directory where
  Entries := (List.range 127).map fun i => entryParse ((l.drop (64 * i)).take 64)
  UpdateCounter := be16val (l.drop 8186)
  ChecksumNormal := (l.drop 8188).take 2
  ChecksumInverted := (l.drop 8190).take 2

/-- `blockMap`: checksums first, then counters and the dense table of
forward links (0x0ffb 16-bit slots). -/
structure BlockMap where
  ChecksumNormal : List Nat
  ChecksumInverted : List Nat
  UpdateCounter : Nat
  FreeBlocks : Nat
  LastAllocatedBlock : Nat
  Blocks : List Nat
deriving DecidableEq

/-- `blockMap.MarshalBinary`: 0x2000 bytes, checksums leading. -/
def blockMapMarshal (m : BlockMap) : List Nat :=
  m.ChecksumNormal ++ m.ChecksumInverted ++ be16 m.UpdateCounter ++
    be16 m.FreeBlocks ++ be16 m.LastAllocatedBlock ++ (m.Blocks.map be16).flatten

/-- `blockMap.generateChecksums`: both variants over everything after the
checksum fields. -/
def BlockMap.generateChecksums (m : BlockMap) : List Nat × List Nat :=
  checksum ((blockMapMarshal m).drop 4)

/-- `blockMap.checksum`: store the freshly computed checksums. -/
def BlockMap.setChecksum (m : BlockMap) : BlockMap :=
  let c := m.generateChecksums
  { m with ChecksumNormal := c.1, ChecksumInverted := c.2 }

/-- `blockMap.isValid`. -/
def BlockMap.isValid (m : BlockMap) : Except CardErr Unit :=
  let c := m.generateChecksums
  if m.ChecksumNormal = c.1 ∧ m.ChecksumInverted = c.2 then .ok ()
  else .error .badBlockMapChecksum

/-- `newBlockMap`: zeroed table, given counter and free-block count,
last-allocated block `reservedBlocks - 1 = 4`. -/
def newBlockMap (updateCounter freeBlocks : Nat) : BlockMap where
  ChecksumNormal := [0, 0]
  ChecksumInverted := [0, 0]
  UpdateCounter := updateCounter
  FreeBlocks := freeBlocks
  LastAllocatedBlock := 4
  Blocks := List.replicate 4091 0

/-- `binary.Read` of one `blockMap` from its 0x2000-byte encoding. -/
def bmParse (l : List Nat) : BlockMap where
  ChecksumNormal := l.take 2
  ChecksumInverted := (l.drop 2).take 2
  UpdateCounter := be16val (l.drop 4)
  FreeBlocks := be16val (l.drop 6)
  LastAllocatedBlock := be16val (l.drop 8)
  Blocks := (List.range 4091).map fun i => be16val (l.drop (10 + 2 * i))

/-- `header`: serial, timestamps, codes, update counter, checksums; the two
reserved spans serialize as 0xFF fill. -/
structure Header where
  Serial : List Nat
  FormatTime : Nat
  CounterBias : Nat
  Lang : Nat
  Unknown : List Nat
  DeviceID : Nat
  CardSize : Nat
  Encoding : Nat
  UpdateCounter : Nat
  ChecksumNormal : List Nat
  ChecksumInverted : List Nat
deriving DecidableEq

/-- `header.MarshalBinary`: 0x2000 bytes with 0xFF-filled reserved spans at
0x26 (length 0x1d4) and 0x200 (length 0x1e00). -/
def headerMarshal (h : Header) : List Nat :=
  h.Serial ++ be64 h.FormatTime ++ be32 h.CounterBias ++ be32 h.Lang ++
    h.Unknown ++ be16 h.DeviceID ++ be16 h.CardSize ++ be16 h.Encoding ++
    List.replicate 468 0xff ++ be16 h.UpdateCounter ++
    h.ChecksumNormal ++ h.ChecksumInverted ++ List.replicate 7680 0xff

/-- `header.size`: `CardSize << 17` bytes. -/
def Header.size (h : Header) : Nat := h.CardSize * 2 ^ 17

/-- `header.blocks`: `CardSize << 4` raw blocks. -/
def Header.blocks (h : Header) : Nat := h.CardSize * 2 ^ 4

/-- `header.generateChecksums`: both variants over the first 508 bytes. -/
def Header.generateChecksums (h : Header) : List Nat × List Nat :=
  checksum ((headerMarshal h).take 508)

/-- `header.checksum`: store the freshly computed checksums. -/
def Header.setChecksum (h : Header) : Header :=
  let c := h.generateChecksums
  { h with ChecksumNormal := c.1, ChecksumInverted := c.2 }

/-- `header.isValid`. -/
def Header.isValid (h : Header) : Except CardErr Unit :=
  let c := h.generateChecksums
  if h.ChecksumNormal = c.1 ∧ h.ChecksumInverted = c.2 then .ok ()
  else .error .badHeaderChecksum

/-- `header.serialNumbers`: the serialized header re-read as eight big-endian
32-bit words (its first 32 bytes, which precede all reserved spans), XORed
across the two interleavings. -/
def Header.serialNumbers (h : Header) : Nat × Nat :=
  let b := h.Serial ++ be64 h.FormatTime ++ be32 h.CounterBias ++
    be32 h.Lang ++ h.Unknown
  let w := fun i => be32val (b.drop (4 * i))
  (Nat.xor (Nat.xor (Nat.xor (w 0) (w 2)) (w 4)) (w 6),
   Nat.xor (Nat.xor (Nat.xor (w 1) (w 3)) (w 5)) (w 7))

/-- `binary.Read` of one `header` from its 0x2000-byte encoding. -/
def headerParse (l : List Nat) : Header where
  Serial := l.take 12
  FormatTime := be64val (l.drop 12)
  CounterBias := be32val (l.drop 20)
  Lang := be32val (l.drop 24)
  Unknown := (l.drop 28).take 4
  DeviceID := be16val (l.drop 32)
  CardSize := be16val (l.drop 34)
  Encoding := be16val (l.drop 36)
  UpdateCounter := be16val (l.drop 506)
  ChecksumNormal := (l.drop 508).take 2
  ChecksumInverted := (l.drop 510).take 2

/-! ## The memory card aggregate -/

/-- `memoryCard`: header, the two redundant directory and block-map copies
(the Go `[copies]` arrays become field pairs with an index accessor), and
the usable blocks. -/
structure MemoryCard where
  header : Header
  dir0 : Directory
  dir1 : Directory
  bm0 : BlockMap
  bm1 : BlockMap
  blocks : List (List Nat)
deriving DecidableEq

/-- `mc.directory[i]` (0 = master, 1 = backup). -/
def MemoryCard.dirAt (mc : MemoryCard) (i : Nat) : Directory :=
  if i = 1 then mc.dir1 else mc.dir0

/-- `mc.blockMap[i]` (0 = master, 1 = backup). -/
def MemoryCard.bmAt (mc : MemoryCard) (i : Nat) : BlockMap :=
  if i = 1 then mc.bm1 else mc.bm0

/-- `memoryCard.activeDirectory`: the backup copy iff its counter is
strictly greater, otherwise the master. -/
def MemoryCard.activeDirectory (mc : MemoryCard) : Nat :=
  if mc.dir0.UpdateCounter < mc.dir1.UpdateCounter then 1 else 0

/-- `memoryCard.activeBlockMap`. -/
def MemoryCard.activeBlockMap (mc : MemoryCard) : Nat :=
  if mc.bm0.UpdateCounter < mc.bm1.UpdateCounter then 1 else 0

/-- `memoryCard.size`. -/
def MemoryCard.size (mc : MemoryCard) : Nat := mc.header.size

/-- `memoryCard.count`: non-empty entries of the active directory. -/
def MemoryCard.count (mc : MemoryCard) : Nat :=
  (mc.dirAt mc.activeDirectory).Entries.countP fun e => !e.isEmpty

/-- `memoryCard.serialNumbers`. -/
def MemoryCard.serialNumbers (mc : MemoryCard) : Nat × Nat :=
  mc.header.serialNumbers

/-- `memoryCard.checksum`: recompute and store every record's checksums
(header, both directories, both block maps).  The Go version threads an
error that can never occur. -/
def MemoryCard.setChecksums (mc : MemoryCard) : MemoryCard :=
  { mc with
    header := mc.header.setChecksum
    dir0 := mc.dir0.setChecksum
    dir1 := mc.dir1.setChecksum
    bm0 := mc.bm0.setChecksum
    bm1 := mc.bm1.setChecksum }

/-- `memoryCard.isValid`: every record's checksums verify, and both
redundant pairs have update counters exactly ±1 apart. -/
def MemoryCard.isValid (mc : MemoryCard) : Except CardErr Unit := do
  mc.header.isValid
  mc.dir0.isValid
  mc.bm0.isValid
  mc.dir1.isValid
  mc.bm1.isValid
  let diffDir : Int := (mc.dir0.UpdateCounter : Int) - (mc.dir1.UpdateCounter : Int)
  if diffDir ≠ 1 ∧ diffDir ≠ -1 then
    throw .invalidDirectoryCounters
  else
    let diffBm : Int := (mc.bm0.UpdateCounter : Int) - (mc.bm1.UpdateCounter : Int)
    if diffBm ≠ 1 ∧ diffBm ≠ -1 then
      throw .invalidBlockMapCounters
    else
      pure ()

/-- `validateCardSize`: the six supported card-size codes. -/
def validateCardSize (capacity : Nat) : Except CardErr Unit :=
  if capacity = 4 ∨ capacity = 8 ∨ capacity = 16 ∨ capacity = 32 ∨
      capacity = 64 ∨ capacity = 128 then .ok ()
  else .error .invalidCapacity

/-- `validateEncoding`: ANSI (0) or SJIS (1). -/
def validateEncoding (encoding : Nat) : Except CardErr Unit :=
  if encoding = 0 ∨ encoding = 1 then .ok ()
  else .error .invalidEncoding

/-- Modelled from the spec: `newDirectory` is called by `newMemoryCard` but
its definition is not among the provided sources.  Per spec §4.2 a fresh
directory copy carries the given update counter and only empty (zero-valued)
entries; checksum fields start zeroed and are recomputed over the whole
image afterwards. -/
def newDirectory (updateCounter : Nat) : Directory where
  Entries := List.replicate 127 emptyEntry
  UpdateCounter := updateCounter
  ChecksumNormal := [0, 0]
  ChecksumInverted := [0, 0]

/-- The blank image built by `newMemoryCard` before its checksums are
computed: counters seeded {1,0}, free blocks `blocks() - 5`, every usable
block filled with 0xFF (the bit-doubling copy loop fills the whole 8 KiB
block from its 0xFF first byte). -/
def blankMemoryCard (flashID : List Nat) (formatTime : Nat)
    (capacity encoding : Nat) : MemoryCard :=
  let header : Header := {
    Serial := computeSerial flashID formatTime
    FormatTime := formatTime
    CounterBias := 0
    Lang := 0
    Unknown := List.replicate 4 0
    DeviceID := 0
    CardSize := capacity
    Encoding := encoding
    UpdateCounter := 0xffff
    ChecksumNormal := [0, 0]
    ChecksumInverted := [0, 0] }
  let freeBlocks := capacity * 2 ^ 4 - 5
  { header := header
    dir0 := newDirectory 1
    dir1 := newDirectory 0
    bm0 := newBlockMap 1 freeBlocks
    bm1 := newBlockMap 0 freeBlocks
    blocks := List.replicate freeBlocks (List.replicate 8192 0xff) }

/-- `newMemoryCard`: validate the codes, build the blank image, then compute
all checksums (the Go error thread of `mc.checksum()` can never fire). -/
def newMemoryCard (flashID : List Nat) (formatTime : Nat)
    (capacity encoding : Nat) : Except CardErr MemoryCard := do
  validateCardSize capacity
  validateEncoding encoding
  pure (blankMemoryCard flashID formatTime capacity encoding).setChecksums

/-- `memoryCard.MarshalBinary`: header, both directory copies, both
block-map copies, then all usable blocks, in that fixed order. -/
def MemoryCard.marshalBinary (mc : MemoryCard) : List Nat :=
  headerMarshal mc.header ++ directoryMarshal mc.dir0 ++
    directoryMarshal mc.dir1 ++ blockMapMarshal mc.bm0 ++
    blockMapMarshal mc.bm1 ++ mc.blocks.flatten

/-- `memoryCard.unmarshalBinary`: decode the header, validate both codes,
decode both directory and block-map copies, read exactly
`blocks() - reservedBlocks` blocks, fail on any trailing byte, and finish
by running `isValid`. -/
def memoryCardUnmarshal (l : List Nat) : Except CardErr MemoryCard := do
  if l.length < 8192 then throw CardErr.readHeader
  let header := headerParse (l.take 8192)
  validateCardSize header.CardSize
  validateEncoding header.Encoding
  let r1 := l.drop 8192
  if r1.length < 16384 then throw CardErr.readDirectory
  let dir0 := dirParse (r1.take 8192)
  let dir1 := dirParse ((r1.drop 8192).take 8192)
  let r2 := r1.drop 16384
  if r2.length < 16384 then throw CardErr.readBlockMap
  let bm0 := bmParse (r2.take 8192)
  let bm1 := bmParse ((r2.drop 8192).take 8192)
  let r3 := r2.drop 16384
  let nb := header.CardSize * 2 ^ 4 - 5
  if r3.length < nb * 8192 then throw CardErr.readBlock
  let blocks := (List.range nb).map fun i => (r3.drop (8192 * i)).take 8192
  let r4 := r3.drop (nb * 8192)
  if r4.length ≠ 0 then throw CardErr.trailingBytes
  let mc : MemoryCard := ⟨header, dir0, dir1, bm0, bm1, blocks⟩
  mc.isValid
  pure mc

/-! ## Well-formedness (the lengths the Go fixed-size arrays guarantee) -/

/-- Field lengths of a well-formed entry. -/
def Entry.wf (e : Entry) : Prop :=
  e.GameCode.length = 4 ∧ e.MakerCode.length = 2 ∧ e.Filename.length = 32

/-- Field lengths of a well-formed header. -/
def Header.wf (h : Header) : Prop :=
  h.Serial.length = 12 ∧ h.Unknown.length = 4 ∧
    h.ChecksumNormal.length = 2 ∧ h.ChecksumInverted.length = 2

/-- Field lengths of a well-formed directory. -/
def Directory.wf (d : Directory) : Prop :=
  d.Entries.length = 127 ∧ (∀ e ∈ d.Entries, e.wf) ∧
    d.ChecksumNormal.length = 2 ∧ d.ChecksumInverted.length = 2

/-- Field lengths of a well-formed block map. -/
def BlockMap.wf (m : BlockMap) : Prop :=
  m.ChecksumNormal.length = 2 ∧ m.ChecksumInverted.length = 2 ∧
    m.Blocks.length = 4091

/-- A well-formed memory card: well-formed records and exactly
`blocks() - reservedBlocks` usable blocks of 8192 bytes each. -/
def MemoryCard.wf (mc : MemoryCard) : Prop :=
  mc.header.wf ∧ mc.dir0.wf ∧ mc.dir1.wf ∧ mc.bm0.wf ∧ mc.bm1.wf ∧
    mc.blocks.length = mc.header.blocks - 5 ∧ ∀ b ∈ mc.blocks, b.length = 8192

theorem flatten_length_const {L : List (List Nat)} {n : Nat}
    (h : ∀ x ∈ L, x.length = n) : L.flatten.length = L.length * n := by
  induction L with
  | nil => simp
  | cons x rest ih =>
    simp only [List.flatten_cons, List.length_append, List.length_cons,
      h x (List.mem_cons_self x rest), ih fun y hy => h y (List.mem_cons_of_mem x hy)]
    ring

theorem entryMarshal_length {e : Entry} (h : e.wf) :
    (entryMarshal e).length = 64 := by
  obtain ⟨h1, h2, h3⟩ := h
  simp only [entryMarshal, be32, be16, List.length_append, List.length_cons,
    List.length_nil, h1, h2, h3]

theorem headerMarshal_length {h : Header} (hw : h.wf) :
    (headerMarshal h).length = 8192 := by
  obtain ⟨h1, h2, h3, h4⟩ := hw
  simp only [headerMarshal, be64, be32, be16, List.length_append,
    List.length_replicate, List.length_cons, List.length_nil, h1, h2, h3, h4]

theorem directoryMarshal_length {d : Directory} (hw : d.wf) :
    (directoryMarshal d).length = 8192 := by
  obtain ⟨h1, h2, h3, h4⟩ := hw
  have hj : (d.Entries.map entryMarshal).flatten.length = 8128 := by
    rw [flatten_length_const (n := 64), List.length_map, h1]
    intro x hx
    obtain ⟨e, he, rfl⟩ := List.mem_map.1 hx
    exact entryMarshal_length (h2 e he)
  simp only [directoryMarshal, be16, List.length_append, List.length_replicate,
    List.length_cons, List.length_nil, hj, h3, h4]

theorem blockMapMarshal_length {m : BlockMap} (hw : m.wf) :
    (blockMapMarshal m).length = 8192 := by
  obtain ⟨h1, h2, h3⟩ := hw
  have hj : (m.Blocks.map be16).flatten.length = 8182 := by
    rw [flatten_length_const (n := 2), List.length_map, h3]
    intro x hx
    obtain ⟨v, _, rfl⟩ := List.mem_map.1 hx
    rfl
  simp only [blockMapMarshal, be16, List.length_append, List.length_replicate,
    List.length_cons, List.length_nil, hj, h1, h2]

/-! ## Recomputing checksums after storing them is stable (C2 core) -/

theorem checksum_length (l : List Nat) :
    (checksum l).1.length = 2 ∧ (checksum l).2.length = 2 := by
  simp only [checksum]
  constructor <;> split <;> simp [digestSum]

/-- The header bytes the checksums are computed over (`b[:508]`). -/
def headerChecksumRegion (h : Header) : List Nat :=
  h.Serial ++ be64 h.FormatTime ++ be32 h.CounterBias ++ be32 h.Lang ++
    h.Unknown ++ be16 h.DeviceID ++ be16 h.CardSize ++ be16 h.Encoding ++
    List.replicate 468 0xff ++ be16 h.UpdateCounter

theorem headerChecksumRegion_length {h : Header} (h1 : h.Serial.length = 12)
    (h2 : h.Unknown.length = 4) : (headerChecksumRegion h).length = 508 := by
  simp only [headerChecksumRegion, be64, be32, be16, List.length_append,
    List.length_replicate, List.length_cons, List.length_nil, h1, h2]

theorem headerMarshal_decompose (h : Header) :
    headerMarshal h = headerChecksumRegion h ++
      (h.ChecksumNormal ++ h.ChecksumInverted ++ List.replicate 7680 0xff) := by
  simp only [headerMarshal, headerChecksumRegion, List.append_assoc]

theorem headerGenChecksums_region {h : Header} (h1 : h.Serial.length = 12)
    (h2 : h.Unknown.length = 4) :
    h.generateChecksums = checksum (headerChecksumRegion h) := by
  unfold Header.generateChecksums
  rw [headerMarshal_decompose, List.take_append_eq_append_take,
    headerChecksumRegion_length h1 h2, Nat.sub_self, List.take_zero,
    List.append_nil,
    List.take_of_length_le (le_of_eq (headerChecksumRegion_length h1 h2))]

theorem headerSetChecksum_isValid {h : Header} (hw : h.wf) :
    h.setChecksum.isValid = .ok () := by
  obtain ⟨h1, h2, _, _⟩ := hw
  have hset : (h.setChecksum).generateChecksums = h.generateChecksums := by
    rw [@headerGenChecksums_region h.setChecksum h1 h2,
      headerGenChecksums_region h1 h2]
    rfl
  simp [Header.isValid, hset]
  simp [Header.setChecksum]

/-- The directory bytes the checksums are computed over
(`b[:blockSize - 4]`). -/
def directoryChecksumRegion (d : Directory) : List Nat :=
  (d.Entries.map entryMarshal).flatten ++ List.replicate 58 0xff ++
    be16 d.UpdateCounter

theorem directoryChecksumRegion_length {d : Directory}
    (hj : (d.Entries.map entryMarshal).flatten.length = 8128) :
    (directoryChecksumRegion d).length = 8188 := by
  simp only [directoryChecksumRegion, be16, List.length_append,
    List.length_replicate, List.length_cons, List.length_nil, hj]

theorem directoryMarshal_decompose (d : Directory) :
    directoryMarshal d = directoryChecksumRegion d ++
      (d.ChecksumNormal ++ d.ChecksumInverted) := by
  simp only [directoryMarshal, directoryChecksumRegion, List.append_assoc]

theorem dirGenChecksums_region {d : Directory}
    (hj : (d.Entries.map entryMarshal).flatten.length = 8128) :
    d.generateChecksums = checksum (directoryChecksumRegion d) := by
  unfold Directory.generateChecksums
  rw [directoryMarshal_decompose, List.take_append_eq_append_take,
    directoryChecksumRegion_length hj, Nat.sub_self, List.take_zero,
    List.append_nil,
    List.take_of_length_le (le_of_eq (directoryChecksumRegion_length hj))]

theorem Directory.entries_flatten_length {d : Directory} (hw : d.wf) :
    (d.Entries.map entryMarshal).flatten.length = 8128 := by
  obtain ⟨h1, h2, _, _⟩ := hw
  rw [flatten_length_const (n := 64), List.length_map, h1]
  intro x hx
  obtain ⟨e, he, rfl⟩ := List.mem_map.1 hx
  exact entryMarshal_length (h2 e he)

theorem dirSetChecksum_isValid {d : Directory} (hw : d.wf) :
    d.setChecksum.isValid = .ok () := by
  have hj := Directory.entries_flatten_length hw
  have hset : (d.setChecksum).generateChecksums = d.generateChecksums := by
    rw [@dirGenChecksums_region d.setChecksum hj,
      dirGenChecksums_region hj]
    rfl
  simp [Directory.isValid, hset]
  simp [Directory.setChecksum]

/-- The block-map bytes the checksums are computed over (`b[4:]`). -/
def blockMapChecksumRegion (m : BlockMap) : List Nat :=
  be16 m.UpdateCounter ++ be16 m.FreeBlocks ++ be16 m.LastAllocatedBlock ++
    (m.Blocks.map be16).flatten

theorem blockMapMarshal_decompose (m : BlockMap) :
    blockMapMarshal m = (m.ChecksumNormal ++ m.ChecksumInverted) ++
      blockMapChecksumRegion m := by
  simp only [blockMapMarshal, blockMapChecksumRegion, List.append_assoc]

theorem bmGenChecksums_region {m : BlockMap}
    (h1 : m.ChecksumNormal.length = 2) (h2 : m.ChecksumInverted.length = 2) :
    m.generateChecksums = checksum (blockMapChecksumRegion m) := by
  unfold BlockMap.generateChecksums
  rw [blockMapMarshal_decompose, List.drop_append_eq_append_drop]
  simp [List.drop_eq_nil_of_le, List.length_append, h1, h2]

theorem bmSetChecksum_isValid {m : BlockMap} (hw : m.wf) :
    m.setChecksum.isValid = .ok () := by
  obtain ⟨h1, h2, _⟩ := hw
  have hset : (m.setChecksum).generateChecksums = m.generateChecksums := by
    rw [@bmGenChecksums_region m.setChecksum
        (checksum_length _).1 (checksum_length _).2,
      bmGenChecksums_region h1 h2]
    rfl
  simp [BlockMap.isValid, hset]
  simp [BlockMap.setChecksum]

theorem validateCardSize_ok (c : Nat) :
    validateCardSize c = .ok () ↔
      (c = 4 ∨ c = 8 ∨ c = 16 ∨ c = 32 ∨ c = 64 ∨ c = 128) := by
  unfold validateCardSize
  split <;> simp_all

theorem validateEncoding_ok (e : Nat) :
    validateEncoding e = .ok () ↔ (e = 0 ∨ e = 1) := by
  unfold validateEncoding
  split <;> simp_all

theorem computeSerial_length (l : List Nat) (r : Nat) :
    (computeSerial l r).length = l.length := by
  induction l generalizing r with
  | nil => rfl
  | cons b rest ih => simp [computeSerial, ih]

theorem emptyEntry_wf : emptyEntry.wf := by
  refine ⟨?_, ?_, ?_⟩ <;> rfl

theorem blankMemoryCard_wf (flashID : List Nat) (formatTime capacity encoding : Nat)
    (hf : flashID.length = 12) :
    (blankMemoryCard flashID formatTime capacity encoding).wf := by
  have hser : (computeSerial flashID formatTime).length = 12 :=
    (computeSerial_length _ _).trans hf
  refine ⟨⟨hser, List.length_replicate 4 0, rfl, rfl⟩,
    ⟨List.length_replicate 127 emptyEntry, ?_, rfl, rfl⟩,
    ⟨List.length_replicate 127 emptyEntry, ?_, rfl, rfl⟩,
    ⟨rfl, rfl, List.length_replicate 4091 0⟩,
    ⟨rfl, rfl, List.length_replicate 4091 0⟩, ?_, ?_⟩
  · intro e he
    rw [List.eq_of_mem_replicate he]
    exact emptyEntry_wf
  · intro e he
    rw [List.eq_of_mem_replicate he]
    exact emptyEntry_wf
  · simp only [blankMemoryCard, List.length_replicate, Header.blocks]
  · intro b hb
    rw [List.eq_of_mem_replicate hb, List.length_replicate]

theorem MemoryCard.setChecksums_wf {mc : MemoryCard} (hw : mc.wf) :
    mc.setChecksums.wf := by
  obtain ⟨⟨hh1, hh2, _, _⟩, ⟨hd1, hd2, _, _⟩, ⟨he1, he2, _, _⟩,
    ⟨_, _, hb1⟩, ⟨_, _, hb2⟩, hbl, hbe⟩ := hw
  refine ⟨⟨hh1, hh2, (checksum_length _).1, (checksum_length _).2⟩,
    ⟨hd1, hd2, (checksum_length _).1, (checksum_length _).2⟩,
    ⟨he1, he2, (checksum_length _).1, (checksum_length _).2⟩,
    ⟨(checksum_length _).1, (checksum_length _).2, hb1⟩,
    ⟨(checksum_length _).1, (checksum_length _).2, hb2⟩, hbl, hbe⟩

theorem MemoryCard.setChecksums_isValid {mc : MemoryCard} (hw : mc.wf)
    (hd : (mc.dir0.UpdateCounter : Int) - mc.dir1.UpdateCounter = 1 ∨
      (mc.dir0.UpdateCounter : Int) - mc.dir1.UpdateCounter = -1)
    (hb : (mc.bm0.UpdateCounter : Int) - mc.bm1.UpdateCounter = 1 ∨
      (mc.bm0.UpdateCounter : Int) - mc.bm1.UpdateCounter = -1) :
    mc.setChecksums.isValid = .ok () := by
  obtain ⟨hh, hd0, hd1, hb0, hb1, _, _⟩ := hw
  have e1 : mc.setChecksums.header.isValid = Except.ok () :=
    headerSetChecksum_isValid hh
  have e2 : mc.setChecksums.dir0.isValid = Except.ok () :=
    dirSetChecksum_isValid hd0
  have e3 : mc.setChecksums.dir1.isValid = Except.ok () :=
    dirSetChecksum_isValid hd1
  have e4 : mc.setChecksums.bm0.isValid = Except.ok () :=
    bmSetChecksum_isValid hb0
  have e5 : mc.setChecksums.bm1.isValid = Except.ok () :=
    bmSetChecksum_isValid hb1
  have c1 : mc.setChecksums.dir0.UpdateCounter = mc.dir0.UpdateCounter := rfl
  have c2 : mc.setChecksums.dir1.UpdateCounter = mc.dir1.UpdateCounter := rfl
  have c3 : mc.setChecksums.bm0.UpdateCounter = mc.bm0.UpdateCounter := rfl
  have c4 : mc.setChecksums.bm1.UpdateCounter = mc.bm1.UpdateCounter := rfl
  simp only [MemoryCard.isValid, e1, e2, e3, e4, e5, c1, c2, c3, c4]
  have hdir : ¬((mc.dir0.UpdateCounter : Int) - mc.dir1.UpdateCounter ≠ 1 ∧
      (mc.dir0.UpdateCounter : Int) - mc.dir1.UpdateCounter ≠ -1) := by
    rcases hd with h | h <;> simp [h]
  have hbm : ¬((mc.bm0.UpdateCounter : Int) - mc.bm1.UpdateCounter ≠ 1 ∧
      (mc.bm0.UpdateCounter : Int) - mc.bm1.UpdateCounter ≠ -1) := by
    rcases hb with h | h <;> simp [h]
  simp [hdir, hbm, Bind.bind, Except.bind]
  rfl

/-! ## Claims C2 and C3 -/

theorem newMemoryCard_eq (flashID : List Nat) (formatTime capacity encoding : Nat)
    (hc : validateCardSize capacity = .ok ())
    (he : validateEncoding encoding = .ok ()) :
    newMemoryCard flashID formatTime capacity encoding =
      .ok (blankMemoryCard flashID formatTime capacity encoding).setChecksums := by
  simp [newMemoryCard, hc, he, Bind.bind, Except.bind]
  rfl

/-- Claim C2: for each of the six supported card-size codes and both
encoding codes, `newMemoryCard` (given a 12-byte flash id) succeeds, and the
resulting card immediately satisfies `isValid`: all header, directory and
block-map checksums verify, and both the directory pair and the block-map
pair carry update counters {1, 0}, so the master copy is the active one. -/
theorem newMemoryCard_isValid (flashID : List Nat)
    (formatTime capacity encoding : Nat) (hf : flashID.length = 12)
    (hc : validateCardSize capacity = .ok ())
    (he : validateEncoding encoding = .ok ()) :
    ∃ mc, newMemoryCard flashID formatTime capacity encoding = .ok mc ∧
      mc.isValid = .ok () ∧
      mc.dir0.UpdateCounter = 1 ∧ mc.dir1.UpdateCounter = 0 ∧
      mc.activeDirectory = 0 ∧
      mc.bm0.UpdateCounter = 1 ∧ mc.bm1.UpdateCounter = 0 ∧
      mc.activeBlockMap = 0 := by
  refine ⟨(blankMemoryCard flashID formatTime capacity encoding).setChecksums,
    newMemoryCard_eq flashID formatTime capacity encoding hc he, ?_,
    rfl, rfl, rfl, rfl, rfl, rfl⟩
  exact MemoryCard.setChecksums_isValid
    (blankMemoryCard_wf flashID formatTime capacity encoding hf)
    (Or.inl rfl) (Or.inl rfl)

/-- Witness for C2: a blank 59-block ANSI card with an all-zero flash id. -/
theorem newMemoryCard_isValid_witness :
    ∃ mc, newMemoryCard (List.replicate 12 0) 0 4 0 = .ok mc ∧
      mc.isValid = .ok () ∧
      mc.dir0.UpdateCounter = 1 ∧ mc.dir1.UpdateCounter = 0 ∧
      mc.activeDirectory = 0 ∧
      mc.bm0.UpdateCounter = 1 ∧ mc.bm1.UpdateCounter = 0 ∧
      mc.activeBlockMap = 0 :=
  newMemoryCard_isValid (List.replicate 12 0) 0 4 0
    (List.length_replicate 12 0) rfl rfl

theorem marshalBinary_length_of_wf {mc : MemoryCard} (hw : mc.wf)
    (hc : validateCardSize mc.header.CardSize = .ok ()) :
    mc.marshalBinary.length = mc.size ∧
      mc.size = mc.header.CardSize * 2 ^ 17 := by
  obtain ⟨hh, hd0, hd1, hb0, hb1, hbl, hbe⟩ := hw
  have hfl : mc.blocks.flatten.length = mc.blocks.length * 8192 :=
    flatten_length_const hbe
  have hc4 : mc.header.CardSize = 4 ∨ mc.header.CardSize = 8 ∨
      mc.header.CardSize = 16 ∨ mc.header.CardSize = 32 ∨
      mc.header.CardSize = 64 ∨ mc.header.CardSize = 128 :=
    (validateCardSize_ok _).1 hc
  have hge : 4 ≤ mc.header.CardSize := by rcases hc4 with h | h | h | h | h | h <;> omega
  refine ⟨?_, rfl⟩
  simp only [MemoryCard.marshalBinary, List.length_append,
    headerMarshal_length hh, directoryMarshal_length hd0,
    directoryMarshal_length hd1, blockMapMarshal_length hb0,
    blockMapMarshal_length hb1, hfl, hbl, Header.blocks,
    MemoryCard.size, Header.size]
  omega

/-- Claim C3: for every well-formed memory card with a supported card-size
code, `MarshalBinary` (header, both directory copies, both block-map copies,
then all usable blocks, in that order) produces exactly
`Header.size() = CardSize * 2^17` bytes; in particular a blank 59-block
card serializes to exactly 524288 bytes. -/
theorem memoryCard_marshal_size :
    (∀ mc : MemoryCard, mc.wf → validateCardSize mc.header.CardSize = .ok () →
      mc.marshalBinary.length = mc.size ∧
        mc.size = mc.header.CardSize * 2 ^ 17) ∧
    (∀ (flashID : List Nat) (formatTime : Nat) (mc' : MemoryCard),
      flashID.length = 12 →
      newMemoryCard flashID formatTime 4 0 = .ok mc' →
      mc'.marshalBinary.length = 524288) := by
  refine ⟨fun mc hw hc => marshalBinary_length_of_wf hw hc, ?_⟩
  intro flashID formatTime mc' hf hnew
  rw [newMemoryCard_eq flashID formatTime 4 0 rfl rfl] at hnew
  obtain rfl : (blankMemoryCard flashID formatTime 4 0).setChecksums = mc' :=
    Except.ok.inj hnew
  have hw := MemoryCard.setChecksums_wf (blankMemoryCard_wf flashID formatTime 4 0 hf)
  have h := marshalBinary_length_of_wf hw rfl
  have hcs : (blankMemoryCard flashID formatTime 4 0).setChecksums.header.CardSize = 4 := rfl
  rw [h.1, h.2, hcs]
  norm_num

/-- Witness for C3: the blank 59-block card built from an all-zero flash id
serializes to exactly 524288 bytes. -/
theorem memoryCard_marshal_size_witness :
    ∃ mc', newMemoryCard (List.replicate 12 0) 0 4 0 = .ok mc' ∧
      mc'.marshalBinary.length = 524288 := by
  have hf : (List.replicate 12 (0 : Nat)).length = 12 := List.length_replicate 12 0
  have hok := newMemoryCard_eq (List.replicate 12 0) 0 4 0 rfl rfl
  exact ⟨_, hok, memoryCard_marshal_size.2 (List.replicate 12 0) 0 _ hf hok⟩

/-! ## Writer: buffered-sink commit protocol and title patches -/

/-- Faults of the writer path. -/
inductive WErr where
  | readHeader
  | duplicateName
  | invalidLength
  | noFreeSpace
deriving DecidableEq

/-- The bytes of the filename key of the F-Zero patch. -/
def fzeroName : List Nat := [102, 95, 122, 101, 114, 111, 46, 100, 97, 116]

/-- The bytes of the filename key of the PSO 1&2 patch. -/
def psoName : List Nat := [80, 83, 79, 95, 83, 89, 83, 84, 69, 77]

/-- The bytes of the filename key of the PSO 3 patch. -/
def pso3Name : List Nat := [80, 83, 79, 51, 95, 83, 89, 83, 84, 69, 77]

/-- One shift round of the F-Zero 16-bit CRC (polynomial 0x8408). -/
def crc16Round (c : Nat) : Nat :=
  if c % 2 = 1 then Nat.xor (c / 2) 0x8408 else c / 2

/-- One byte of the F-Zero CRC: XOR in, then eight shift rounds. -/
def crc16Byte (c b : Nat) : Nat :=
  (List.range 8).foldl (fun a _ => crc16Round a) (Nat.xor c b)

/-- The F-Zero save checksum over bytes `[2, 0x8000)`, seeded 0xFFFF. -/
def fzeroChecksum (b : List Nat) : Nat :=
  ((b.drop 2).take 0x7ffe).foldl crc16Byte 0xffff

/-- `patchFZero`: embed the two derived serial numbers, then store the
complemented CRC big-endian at offset 0. -/
def patchFZero (b : List Nat) (mc : MemoryCard) : Except WErr (List Nat) :=
  let s := mc.serialNumbers
  if b.length < 0x8000 then .error .invalidLength
  else
    let b1 := ((((((((b.set 0x2066 (s.1 / 2 ^ 24 % 256)).set 0x2067
      (s.1 / 2 ^ 16 % 256)).set 0x7580 (s.2 / 2 ^ 24 % 256)).set 0x7581
      (s.2 / 2 ^ 16 % 256)).set 0x2060 (s.1 / 2 ^ 8 % 256)).set 0x2061
      (s.1 % 256)).set 0x2200 (s.2 / 2 ^ 8 % 256)).set 0x2201 (s.2 % 256))
    let chk := fzeroChecksum b1
    .ok ((b1.set 0 (Nat.xor chk 0xffff / 256 % 256)).set 1
      (Nat.xor chk 0xffff % 256))

/-- One shift round of the PSO 32-bit CRC (reflected polynomial
0xEDB88320). -/
def crc32Round (c : Nat) : Nat :=
  if c % 2 = 1 then Nat.xor (c / 2) 0xedb88320 else c / 2

/-- The PSO CRC lookup table as a function of the byte index. -/
def crc32Lut (i : Nat) : Nat :=
  (List.range 8).foldl (fun a _ => crc32Round a) i

/-- One byte of the PSO CRC. -/
def psoStep (c b : Nat) : Nat :=
  Nat.xor (c / 256 % 2 ^ 24) (crc32Lut (Nat.xor (c % 256) b))

/-- The PSO save checksum over bytes `[0x204c, 0x2164 + offset)`, seeded
0xDEBB20E3 and complemented at the end. -/
def psoChecksum (b : List Nat) (offset : Nat) : Nat :=
  Nat.xor (((b.drop 0x204c).take (0x118 + offset)).foldl psoStep 0xdebb20e3)
    0xffffffff

/-- `patchPSO`: embed the two derived serial numbers, then store the CRC
big-endian at offset 0x2048. -/
def patchPSO (b : List Nat) (mc : MemoryCard) (offset : Nat) :
    Except WErr (List Nat) :=
  let s := mc.serialNumbers
  if b.length < 0x6000 then .error .invalidLength
  else
    let b1 := ((((((((b.set 0x2158 (s.1 / 2 ^ 24 % 256)).set 0x2159
      (s.1 / 2 ^ 16 % 256)).set 0x215a (s.1 / 2 ^ 8 % 256)).set 0x215b
      (s.1 % 256)).set 0x215c (s.2 / 2 ^ 24 % 256)).set 0x215d
      (s.2 / 2 ^ 16 % 256)).set 0x215e (s.2 / 2 ^ 8 % 256)).set 0x215f
      (s.2 % 256))
    let chk := psoChecksum b1 offset
    .ok ((((b1.set 0x2048 (chk / 2 ^ 24 % 256)).set 0x2049
      (chk / 2 ^ 16 % 256)).set 0x204a (chk / 2 ^ 8 % 256)).set 0x204b
      (chk % 256))

/-- The `gamePatches` dispatch, keyed by the exact stored filename. -/
def gamePatches (name : List Nat) (r : List Nat) (mc : MemoryCard) :
    Except WErr (List Nat) :=
  if name = fzeroName then patchFZero r mc
  else if name = psoName then patchPSO r mc 0
  else if name = pso3Name then patchPSO r mc 0x10
  else .ok r

/-- Replace directory copy `i`. -/
def MemoryCard.setDirAt (mc : MemoryCard) (i : Nat) (d : Directory) :
    MemoryCard :=
  if i = 1 then { mc with dir1 := d } else { mc with dir0 := d }

/-- Replace block-map copy `i`. -/
def MemoryCard.setBmAt (mc : MemoryCard) (i : Nat) (m : BlockMap) :
    MemoryCard :=
  if i = 1 then { mc with bm1 := m } else { mc with bm0 := m }

/-- The mutation tail of `fileWriter.Close` after all validation passed:
bump-allocate from `LastAllocatedBlock + 1`, write the buffered bytes into
the usable blocks, chain the allocation-table links (0xFFFF on the last),
append the entry at index `count()`, advance the counters and recompute all
checksums.  All 16-bit arithmetic wraps mod 65536; out-of-range block
indices (a Go panic) are no-ops of `List.set`. -/
def commitEntry (mc : MemoryCard) (e : Entry) (r : List Nat) : MemoryCard :=
  let am := mc.activeBlockMap
  let bmA := mc.bmAt am
  let fb := (bmA.LastAllocatedBlock + 1) % 65536
  let e' := { e with FirstBlock := fb }
  let s := (fb + 65536 - 5) % 65536
  let t := (fb + e.FileLength + 65536 - 5) % 65536
  let step := fun (acc : List (List Nat) × List Nat) (j : Nat) =>
    let i := s + j
    let chunk := (r.drop (8192 * j)).take 8192
    let old := acc.1.getD i []
    (acc.1.set i (chunk ++ old.drop chunk.length),
     acc.2.set i (if (i + 1) % 65536 < t then (i + 6) % 65536 else 0xffff))
  let res := (List.range (t - s)).foldl step (mc.blocks, bmA.Blocks)
  let ad := mc.activeDirectory
  let dirA := mc.dirAt ad
  let k := mc.count
  let mc1 := { mc with blocks := res.1 }
  let mc2 := mc1.setBmAt am { bmA with
    Blocks := res.2
    LastAllocatedBlock := (bmA.LastAllocatedBlock + e.FileLength) % 65536
    FreeBlocks := (bmA.FreeBlocks + 65536 - e.FileLength % 65536) % 65536 }
  let mc3 := mc2.setDirAt ad { dirA with Entries := dirA.Entries.set k e' }
  mc3.setChecksums

/-- `fileWriter.Close` (after the sink is dropped from the writer's open
set): decode the 64-byte entry header, fault on a duplicate stored
filename, a length mismatch, or missing capacity, apply a matching title
patch, then commit. -/
def fileWriterClose (buf : List Nat) (mc : MemoryCard) :
    MemoryCard × Option WErr :=
  if buf.length < 64 then (mc, some .readHeader)
  else
    let e := entryParse (buf.take 64)
    let rest := buf.drop 64
    if (mc.dirAt mc.activeDirectory).Entries.any
        (fun x => !x.isEmpty && x.filename == e.filename) then
      (mc, some .duplicateName)
    else if rest.length ≠ e.FileLength * 8192 then
      (mc, some .invalidLength)
    else if mc.count = 127 ∨ (mc.bmAt mc.activeBlockMap).FreeBlocks < e.FileLength then
      (mc, some .noFreeSpace)
    else
      match gamePatches e.filename rest mc with
      | .error err => (mc, some err)
      | .ok r => (commitEntry mc e r, none)

/-- A minimal concrete card for witnesses (well-formedness is not required
by the commit-fault claims). -/
def tinyCard : MemoryCard where
  header := {
    Serial := List.replicate 12 0
    FormatTime := 0
    CounterBias := 0
    Lang := 0
    Unknown := List.replicate 4 0
    DeviceID := 0
    CardSize := 4
    Encoding := 0
    UpdateCounter := 0xffff
    ChecksumNormal := [0, 0]
    ChecksumInverted := [0, 0] }
  dir0 := {
    Entries := []
    UpdateCounter := 1
    ChecksumNormal := [0, 0]
    ChecksumInverted := [0, 0] }
  dir1 := {
    Entries := []
    UpdateCounter := 0
    ChecksumNormal := [0, 0]
    ChecksumInverted := [0, 0] }
  bm0 := {
    ChecksumNormal := [0, 0]
    ChecksumInverted := [0, 0]
    UpdateCounter := 1
    FreeBlocks := 59
    LastAllocatedBlock := 4
    Blocks := [] }
  bm1 := {
    ChecksumNormal := [0, 0]
    ChecksumInverted := [0, 0]
    UpdateCounter := 0
    FreeBlocks := 59
    LastAllocatedBlock := 4
    Blocks := [] }
  blocks := []

/-- A `Writer` as far as its open-sink bookkeeping is concerned: the card
under construction and the open sinks (`fw` map) as id/buffer pairs. -/
structure WriterState where
  mc : MemoryCard
  fw : List (Nat × List Nat)

/-- `fileWriter.Close` seen from the writer: the sink is deleted from the
open set first, before any validation or mutation of the card. -/
def Writer.closeFile (w : WriterState) (s : Nat × List Nat) :
    WriterState × Option WErr :=
  let w1 : WriterState := { w with fw := w.fw.filter fun x => x.1 != s.1 }
  let res := fileWriterClose s.2 w1.mc
  ({ w1 with mc := res.1 }, res.2)

/-- The close-all loop of `Writer.Close`, with fuel bounding the iteration
count (each round removes the processed sink, so the initial set size is
enough fuel). -/
def Writer.closeAllGo : Nat → WriterState → WriterState × Option WErr
  | 0, w => (w, none)
  | fuel + 1, w =>
    match w.fw with
    | [] => (w, none)
    | s :: _ =>
      let res := Writer.closeFile w s
      match res.2 with
      | some e => (res.1, some e)
      | none => Writer.closeAllGo fuel res.1

/-- The close-any-open-files loop of `Writer.Close`. -/
def Writer.closeAll (w : WriterState) : WriterState × Option WErr :=
  Writer.closeAllGo w.fw.length w

/-- `Writer.Close`: close any open sinks, then serialize the card (the byte
sink is modelled as the returned byte list). -/
def Writer.close (w : WriterState) : WriterState × Option WErr × List Nat :=
  let res := Writer.closeAll w
  match res.2 with
  | some e => (res.1, some e, [])
  | none => (res.1, none, res.1.mc.marshalBinary)

/-! ## Claims C6 and C10 -/

theorem fileWriterClose_cases (buf : List Nat) (mc : MemoryCard) :
    (fileWriterClose buf mc).2 = none ∨ (fileWriterClose buf mc).1 = mc := by
  unfold fileWriterClose
  split
  · exact Or.inr rfl
  dsimp only
  split
  · exact Or.inr rfl
  split
  · exact Or.inr rfl
  split
  · exact Or.inr rfl
  split
  · exact Or.inr rfl
  · exact Or.inl rfl

/-- Claim C6: whenever the buffered sink's close returns a DuplicateName,
InvalidLength or NoFreeSpace fault, the card's committed state — directory
entries, `count()`, block map, block contents and checksums — is exactly as
before the call (the returned card is the input card). -/
theorem fileWriterClose_fault_preserves (buf : List Nat) (mc : MemoryCard)
    (h : (fileWriterClose buf mc).2 = some WErr.duplicateName ∨
      (fileWriterClose buf mc).2 = some WErr.invalidLength ∨
      (fileWriterClose buf mc).2 = some WErr.noFreeSpace) :
    (fileWriterClose buf mc).1 = mc := by
  rcases fileWriterClose_cases buf mc with hn | he
  · rcases h with h | h | h <;> rw [hn] at h <;> cases h
  · exact he

/-- Witness for C6: a 65-byte buffer whose declared length (0 blocks) does
not match its one payload byte faults with InvalidLength and leaves the
card untouched. -/
theorem fileWriterClose_fault_preserves_witness :
    (fileWriterClose (List.replicate 65 0) tinyCard).1 = tinyCard :=
  fileWriterClose_fault_preserves (List.replicate 65 0) tinyCard
    (Or.inr (Or.inl (by decide)))

/-- Claim C10: closing a buffered sink removes it from the writer's open
set before any validation, so after the close returns — fault or success —
no sink with that id is tracked, and a `Writer.Close` whose loop finishes
leaves the open set empty (no commit is ever re-attempted). -/
theorem writer_close_removes_sink :
    (∀ (w : WriterState) (s : Nat × List Nat),
      ∀ x ∈ (Writer.closeFile w s).1.fw, x.1 ≠ s.1) ∧
    (∀ w : WriterState,
      (Writer.closeAll w).2 = none → (Writer.closeAll w).1.fw = []) := by
  constructor
  · intro w s x hx
    have hx' : x ∈ w.fw.filter (fun x => x.1 != s.1) := hx
    have := (List.mem_filter.1 hx').2
    simpa using this
  · have key : ∀ (fuel : Nat) (w : WriterState), w.fw.length ≤ fuel →
        (Writer.closeAllGo fuel w).2 = none → (Writer.closeAllGo fuel w).1.fw = [] := by
      intro fuel
      induction fuel with
      | zero =>
        intro w hlen _
        have : w.fw = [] := List.eq_nil_of_length_eq_zero (Nat.le_zero.1 hlen)
        simp [Writer.closeAllGo, this]
      | succ n ih =>
        intro w hlen hok
        match hfw : w.fw with
        | [] => simp [Writer.closeAllGo, hfw]
        | s :: rest =>
          have hlt : ((Writer.closeFile w s).1.fw).length ≤ n := by
            have heq : (Writer.closeFile w s).1.fw =
                w.fw.filter (fun x => x.1 != s.1) := rfl
            have hl2 : w.fw.length = rest.length + 1 := by rw [hfw]; rfl
            rw [heq, hfw]
            have hle : (List.filter (fun x => x.1 != s.1) (s :: rest)).length ≤
                rest.length := by
              rw [List.filter_cons_of_neg (by simp)]
              exact List.length_filter_le _ _
            omega
          simp only [Writer.closeAllGo, hfw] at hok ⊢
          match hres : (Writer.closeFile w s).2 with
          | some e =>
            rw [hres] at hok
            exact Option.noConfusion hok
          | none =>
            rw [hres] at hok
            exact ih _ hlt hok
    intro w
    exact key w.fw.length w (le_refl _)

/-- Witness for C10: a two-sink writer state; after closing sink 1 the
remaining tracked sink is not sink 1, and a writer with no open sinks
drains to the empty set. -/
theorem writer_close_removes_sink_witness :
    (2 : Nat) ≠ 1 ∧
      (Writer.closeAll ⟨tinyCard, []⟩).1.fw = [] :=
  ⟨writer_close_removes_sink.1 ⟨tinyCard, [(1, []), (2, [])]⟩ (1, [])
      (2, []) (by decide),
   writer_close_removes_sink.2 ⟨tinyCard, []⟩ (by rfl)⟩

/-! ## Claim C7: duplicate names -/

theorem fileWriterClose_success_inv {buf : List Nat} {mc mc' : MemoryCard}
    (h : fileWriterClose buf mc = (mc', none)) :
    ¬ buf.length < 64 ∧
      ((mc.dirAt mc.activeDirectory).Entries.any
        (fun x => !x.isEmpty &&
          x.filename == (entryParse (buf.take 64)).filename)) = false ∧
      mc.count ≠ 127 ∧
      ∃ r, gamePatches (entryParse (buf.take 64)).filename (buf.drop 64) mc =
          .ok r ∧
        mc' = commitEntry mc (entryParse (buf.take 64)) r := by
  unfold fileWriterClose at h
  split at h
  case isTrue hlt => exact absurd (congrArg Prod.snd h) (by simp)
  case isFalse hlt =>
    dsimp only at h
    split at h
    case isTrue hdup => exact absurd (congrArg Prod.snd h) (by simp)
    case isFalse hdup =>
      split at h
      case isTrue => exact absurd (congrArg Prod.snd h) (by simp)
      case isFalse hlen =>
        split at h
        case isTrue => exact absurd (congrArg Prod.snd h) (by simp)
        case isFalse hcap =>
          cases hp : gamePatches (entryParse (List.take 64 buf)).filename
              (List.drop 64 buf) mc with
          | error err =>
            rw [hp] at h
            exact absurd (congrArg Prod.snd h) (by simp)
          | ok r =>
            rw [hp] at h
            refine ⟨hlt, Bool.eq_false_iff.2 hdup,
              fun hc => hcap (Or.inl hc), r, rfl, ?_⟩
            have h1 := congrArg Prod.fst h
            simpa using h1.symm

theorem setBmAt_dir0 (mc : MemoryCard) (i : Nat) (m : BlockMap) :
    (mc.setBmAt i m).dir0 = mc.dir0 := by
  unfold MemoryCard.setBmAt
  split <;> rfl

theorem setBmAt_dir1 (mc : MemoryCard) (i : Nat) (m : BlockMap) :
    (mc.setBmAt i m).dir1 = mc.dir1 := by
  unfold MemoryCard.setBmAt
  split <;> rfl

theorem commitEntry_dir0_counter (mc : MemoryCard) (e : Entry) (r : List Nat) :
    (commitEntry mc e r).dir0.UpdateCounter = mc.dir0.UpdateCounter := by
  by_cases hd : mc.dir0.UpdateCounter < mc.dir1.UpdateCounter <;>
    by_cases hb : mc.bm0.UpdateCounter < mc.bm1.UpdateCounter <;>
      simp [commitEntry, MemoryCard.activeDirectory, MemoryCard.activeBlockMap,
        MemoryCard.dirAt, MemoryCard.bmAt, MemoryCard.setDirAt,
        MemoryCard.setBmAt, MemoryCard.setChecksums, Directory.setChecksum,
        hd, hb]

theorem commitEntry_dir1_counter (mc : MemoryCard) (e : Entry) (r : List Nat) :
    (commitEntry mc e r).dir1.UpdateCounter = mc.dir1.UpdateCounter := by
  by_cases hd : mc.dir0.UpdateCounter < mc.dir1.UpdateCounter <;>
    by_cases hb : mc.bm0.UpdateCounter < mc.bm1.UpdateCounter <;>
      simp [commitEntry, MemoryCard.activeDirectory, MemoryCard.activeBlockMap,
        MemoryCard.dirAt, MemoryCard.bmAt, MemoryCard.setDirAt,
        MemoryCard.setBmAt, MemoryCard.setChecksums, Directory.setChecksum,
        hd, hb]

theorem commitEntry_activeDirectory (mc : MemoryCard) (e : Entry) (r : List Nat) :
    (commitEntry mc e r).activeDirectory = mc.activeDirectory := by
  unfold MemoryCard.activeDirectory
  rw [commitEntry_dir0_counter, commitEntry_dir1_counter]

theorem commitEntry_active_entries (mc : MemoryCard) (e : Entry) (r : List Nat) :
    ((commitEntry mc e r).dirAt mc.activeDirectory).Entries =
      (mc.dirAt mc.activeDirectory).Entries.set mc.count
        { e with FirstBlock :=
          ((mc.bmAt mc.activeBlockMap).LastAllocatedBlock + 1) % 65536 } := by
  by_cases hd : mc.dir0.UpdateCounter < mc.dir1.UpdateCounter <;>
    by_cases hb : mc.bm0.UpdateCounter < mc.bm1.UpdateCounter <;>
      simp [commitEntry, MemoryCard.activeDirectory, MemoryCard.activeBlockMap,
        MemoryCard.dirAt, MemoryCard.bmAt, MemoryCard.setDirAt,
        MemoryCard.setBmAt, MemoryCard.setChecksums, Directory.setChecksum,
        MemoryCard.count, hd, hb]

theorem mem_set_self {α : Type} (l : List α) (k : Nat) (a : α)
    (hk : k < l.length) : a ∈ l.set k a := by
  induction l generalizing k with
  | nil => cases hk
  | cons x xs ih =>
    cases k with
    | zero => exact List.mem_cons_self _ _
    | succ n =>
      exact List.mem_cons_of_mem _ (ih n (by simpa using hk))

theorem countP_set_eq_one {l : List Entry} {p : Entry → Bool} {k : Nat}
    {a : Entry} (hall : ∀ x ∈ l, p x = false) (hk : k < l.length)
    (ha : p a = true) : (l.set k a).countP p = 1 := by
  induction l generalizing k with
  | nil => cases hk
  | cons x xs ih =>
    have hxs : xs.countP p = 0 :=
      List.countP_eq_zero.2 fun y hy => by
        simp [hall y (List.mem_cons_of_mem x hy)]
    cases k with
    | zero =>
      simp [List.set, List.countP_cons, ha, hxs]
    | succ n =>
      simp only [List.set, List.countP_cons,
        ih (fun y hy => hall y (List.mem_cons_of_mem x hy)) (by simpa using hk)]
      simp [hall x (List.mem_cons_self x xs)]

/-- Claim C7: when two buffered sinks are committed with identical stored
filenames (the first one a real, non-empty entry), the second close faults
with DuplicateName — the card unchanged — and the active directory then
holds exactly one non-empty entry with that name. -/
theorem second_close_duplicate_name (bufA bufB : List Nat)
    (mc0 mc1 : MemoryCard)
    (hE : (mc0.dirAt mc0.activeDirectory).Entries.length = 127)
    (hsucc : fileWriterClose bufA mc0 = (mc1, none))
    (hne : (entryParse (bufA.take 64)).isEmpty = false)
    (hBlen : ¬ bufB.length < 64)
    (hname : (entryParse (bufB.take 64)).filename =
      (entryParse (bufA.take 64)).filename) :
    fileWriterClose bufB mc1 = (mc1, some WErr.duplicateName) ∧
      ((mc1.dirAt mc1.activeDirectory).Entries.countP
        (fun x => !x.isEmpty &&
          x.filename == (entryParse (bufA.take 64)).filename)) = 1 := by
  obtain ⟨hlen, hdup, hcnt, r, hr, hmc⟩ := fileWriterClose_success_inv hsucc
  have hk : mc0.count < 127 := by
    have hle : mc0.count ≤ 127 := by
      have := List.countP_le_length
        (l := (mc0.dirAt mc0.activeDirectory).Entries)
        (p := fun e => !e.isEmpty)
      simpa [MemoryCard.count, hE] using this
    omega
  have hAD : mc1.activeDirectory = mc0.activeDirectory := by
    rw [hmc]
    exact commitEntry_activeDirectory mc0 _ r
  have hEnt : (mc1.dirAt mc1.activeDirectory).Entries =
      (mc0.dirAt mc0.activeDirectory).Entries.set mc0.count
        { entryParse (bufA.take 64) with FirstBlock :=
          ((mc0.bmAt mc0.activeBlockMap).LastAllocatedBlock + 1) % 65536 } := by
    rw [hAD, hmc]
    exact commitEntry_active_entries mc0 _ r
  have hall : ∀ x ∈ (mc0.dirAt mc0.activeDirectory).Entries,
      (!x.isEmpty && x.filename == (entryParse (bufA.take 64)).filename) = false := by
    intro x hx
    by_contra hcon
    have : (mc0.dirAt mc0.activeDirectory).Entries.any
        (fun x => !x.isEmpty &&
          x.filename == (entryParse (bufA.take 64)).filename) = true :=
      List.any_eq_true.2 ⟨x, hx, by
        cases hxx : (!x.isEmpty && x.filename == (entryParse (bufA.take 64)).filename) with
        | true => rfl
        | false => exact absurd hxx hcon⟩
    rw [this] at hdup
    cases hdup
  set eA := entryParse (bufA.take 64) with heA
  set eA' : Entry := { eA with FirstBlock :=
    ((mc0.bmAt mc0.activeBlockMap).LastAllocatedBlock + 1) % 65536 } with heA'
  have hpa : (!eA'.isEmpty &&
      eA'.filename == (entryParse (bufA.take 64)).filename) = true := by
    have h1 : eA'.isEmpty = eA.isEmpty := rfl
    have h2 : eA'.filename = eA.filename := rfl
    rw [h1, h2, ← heA, hne]
    simp
  have hpb : (!eA'.isEmpty &&
      eA'.filename == (entryParse (bufB.take 64)).filename) = true := by
    have h1 : eA'.isEmpty = eA.isEmpty := rfl
    have h2 : eA'.filename = eA.filename := rfl
    rw [h1, h2, hname, hne]
    simp
  have hmem : eA' ∈ (mc1.dirAt mc1.activeDirectory).Entries := by
    rw [hEnt]
    exact mem_set_self _ _ _ (by rw [hE]; exact hk)
  constructor
  · have hany : ((mc1.dirAt mc1.activeDirectory).Entries.any
        (fun x => !x.isEmpty &&
          x.filename == (entryParse (bufB.take 64)).filename)) = true :=
      List.any_eq_true.2 ⟨eA', hmem, hpb⟩
    unfold fileWriterClose
    rw [if_neg hBlen]
    dsimp only
    rw [if_pos hany]
  · rw [hEnt]
    exact countP_set_eq_one hall (by rw [hE]; exact hk) hpa

set_option maxRecDepth 16000 in
/-- Witness for C7: committing the same 64-byte header (game code 01000000,
filename "a", zero blocks) twice onto a blank 59-block card: the second
close faults with DuplicateName and the directory holds the name once. -/
theorem second_close_duplicate_name_witness :
    fileWriterClose ([1, 0, 0, 0, 0, 0, 0, 0, 97] ++ List.replicate 55 0)
        ((fileWriterClose ([1, 0, 0, 0, 0, 0, 0, 0, 97] ++ List.replicate 55 0)
          (blankMemoryCard (List.replicate 12 0) 0 4 0)).1) =
      ((fileWriterClose ([1, 0, 0, 0, 0, 0, 0, 0, 97] ++ List.replicate 55 0)
          (blankMemoryCard (List.replicate 12 0) 0 4 0)).1,
        some WErr.duplicateName) ∧
      ((((fileWriterClose ([1, 0, 0, 0, 0, 0, 0, 0, 97] ++ List.replicate 55 0)
          (blankMemoryCard (List.replicate 12 0) 0 4 0)).1).dirAt
            ((fileWriterClose ([1, 0, 0, 0, 0, 0, 0, 0, 97] ++ List.replicate 55 0)
              (blankMemoryCard (List.replicate 12 0) 0 4 0)).1).activeDirectory).Entries.countP
        (fun x => !x.isEmpty &&
          x.filename == (entryParse (([1, 0, 0, 0, 0, 0, 0, 0, 97] ++
            List.replicate 55 0).take 64)).filename)) = 1 :=
  second_close_duplicate_name
    ([1, 0, 0, 0, 0, 0, 0, 0, 97] ++ List.replicate 55 0)
    ([1, 0, 0, 0, 0, 0, 0, 0, 97] ++ List.replicate 55 0)
    (blankMemoryCard (List.replicate 12 0) 0 4 0) _
    (by decide) rfl (by decide) (by decide) rfl

/-! ## Claim C9: unmarshal validation order -/

/-- The card assembled by `unmarshalBinary` from an input that passes all
its reads: header, two directories, two block maps, then
`blocks() - reservedBlocks` blocks. -/
def parsedMemoryCard (l : List Nat) : MemoryCard :=
  let header := headerParse (l.take 8192)
  let r1 := l.drop 8192
  let r2 := r1.drop 16384
  let r3 := r2.drop 16384
  let nb := header.CardSize * 2 ^ 4 - 5
  { header := header
    dir0 := dirParse (r1.take 8192)
    dir1 := dirParse ((r1.drop 8192).take 8192)
    bm0 := bmParse (r2.take 8192)
    bm1 := bmParse ((r2.drop 8192).take 8192)
    blocks := (List.range nb).map fun i => (r3.drop (8192 * i)).take 8192 }

theorem validateCardSize_mem (c : Nat) :
    validateCardSize c = .ok () ↔ c ∈ ([4, 8, 16, 32, 64, 128] : List Nat) := by
  rw [validateCardSize_ok]
  simp

theorem validateCardSize_err {c : Nat}
    (h : c ∉ ([4, 8, 16, 32, 64, 128] : List Nat)) :
    validateCardSize c = .error .invalidCapacity := by
  unfold validateCardSize
  rw [if_neg]
  simpa using h

theorem validateEncoding_mem (e : Nat) :
    validateEncoding e = .ok () ↔ e ∈ ([0, 1] : List Nat) := by
  rw [validateEncoding_ok]
  simp

theorem validateEncoding_err {e : Nat} (h : e ∉ ([0, 1] : List Nat)) :
    validateEncoding e = .error .invalidEncoding := by
  unfold validateEncoding
  rw [if_neg]
  simpa using h

/-- Claim C9: decoding an image faults with InvalidCapacity on an
unsupported card-size code, with InvalidEncoding on an unsupported encoding
code, and — after reading exactly `blocks() - reservedBlocks` blocks — with
TrailingData when at least one input byte remains; with no byte left over
it finishes by running `isValid` on the decoded card. -/
theorem unmarshal_validation (l : List Nat) (h8 : 8192 ≤ l.length) :
    ((headerParse (l.take 8192)).CardSize ∉ ([4, 8, 16, 32, 64, 128] : List Nat) →
      memoryCardUnmarshal l = .error CardErr.invalidCapacity) ∧
    ((headerParse (l.take 8192)).CardSize ∈ ([4, 8, 16, 32, 64, 128] : List Nat) →
      (headerParse (l.take 8192)).Encoding ∉ ([0, 1] : List Nat) →
      memoryCardUnmarshal l = .error CardErr.invalidEncoding) ∧
    ((headerParse (l.take 8192)).CardSize ∈ ([4, 8, 16, 32, 64, 128] : List Nat) →
      (headerParse (l.take 8192)).Encoding ∈ ([0, 1] : List Nat) →
      (headerParse (l.take 8192)).CardSize * 2 ^ 17 < l.length →
      memoryCardUnmarshal l = .error CardErr.trailingBytes) ∧
    ((headerParse (l.take 8192)).CardSize ∈ ([4, 8, 16, 32, 64, 128] : List Nat) →
      (headerParse (l.take 8192)).Encoding ∈ ([0, 1] : List Nat) →
      l.length = (headerParse (l.take 8192)).CardSize * 2 ^ 17 →
      ((parsedMemoryCard l).isValid = .ok () →
        memoryCardUnmarshal l = .ok (parsedMemoryCard l)) ∧
      (∀ e, (parsedMemoryCard l).isValid = .error e →
        memoryCardUnmarshal l = .error e)) := by
  have hnl : ¬ l.length < 8192 := Nat.not_lt.2 h8
  refine ⟨?_, ?_, ?_, ?_⟩
  · intro hcs
    simp [memoryCardUnmarshal, hnl, validateCardSize_err hcs,
      Bind.bind, Except.bind, Pure.pure, Except.pure]
  · intro hcs henc
    simp [memoryCardUnmarshal, hnl, (validateCardSize_mem _).2 hcs,
      validateEncoding_err henc, Bind.bind, Except.bind, Pure.pure, Except.pure]
  · intro hcs henc hlt
    have hge : 4 ≤ (headerParse (l.take 8192)).CardSize := by
      rcases (by simpa using hcs :
        (headerParse (l.take 8192)).CardSize = 4 ∨
        (headerParse (l.take 8192)).CardSize = 8 ∨
        (headerParse (l.take 8192)).CardSize = 16 ∨
        (headerParse (l.take 8192)).CardSize = 32 ∨
        (headerParse (l.take 8192)).CardSize = 64 ∨
        (headerParse (l.take 8192)).CardSize = 128) with h | h | h | h | h | h <;>
        omega
    have k1 : ¬ l.length - 8192 < 16384 := by omega
    have k2 : ¬ l.length - 24576 < 16384 := by omega
    have k3 : ¬ l.length - 40960 <
        ((headerParse (l.take 8192)).CardSize * 16 - 5) * 8192 := by omega
    have k4 : ¬ l.length -
        (40960 + ((headerParse (l.take 8192)).CardSize * 16 - 5) * 8192) = 0 := by
      omega
    simp [memoryCardUnmarshal, hnl, (validateCardSize_mem _).2 hcs,
      (validateEncoding_mem _).2 henc, k1, k2, k3, k4,
      Bind.bind, Except.bind, Pure.pure, Except.pure]
  · intro hcs henc hlen
    have hge : 4 ≤ (headerParse (l.take 8192)).CardSize := by
      rcases (by simpa using hcs :
        (headerParse (l.take 8192)).CardSize = 4 ∨
        (headerParse (l.take 8192)).CardSize = 8 ∨
        (headerParse (l.take 8192)).CardSize = 16 ∨
        (headerParse (l.take 8192)).CardSize = 32 ∨
        (headerParse (l.take 8192)).CardSize = 64 ∨
        (headerParse (l.take 8192)).CardSize = 128) with h | h | h | h | h | h <;>
        omega
    have k1 : ¬ l.length - 8192 < 16384 := by omega
    have k2 : ¬ l.length - 24576 < 16384 := by omega
    have k3 : ¬ l.length - 40960 <
        ((headerParse (l.take 8192)).CardSize * 16 - 5) * 8192 := by omega
    have k4 : l.length -
        (40960 + ((headerParse (l.take 8192)).CardSize * 16 - 5) * 8192) = 0 := by
      omega
    constructor
    · intro hval
      simp [parsedMemoryCard] at hval
      simp [memoryCardUnmarshal, hnl, (validateCardSize_mem _).2 hcs,
        (validateEncoding_mem _).2 henc, k1, k2, k3, k4, hval,
        Bind.bind, Except.bind, Pure.pure, Except.pure, parsedMemoryCard]
    · intro e hval
      simp [parsedMemoryCard] at hval
      simp [memoryCardUnmarshal, hnl, (validateCardSize_mem _).2 hcs,
        (validateEncoding_mem _).2 henc, k1, k2, k3, k4, hval,
        Bind.bind, Except.bind, Pure.pure, Except.pure, parsedMemoryCard]

/-- Witness for C9: an all-zero header faults with InvalidCapacity; card
size 4 with encoding 7 faults with InvalidEncoding; a 59-block image with
one extra byte faults with TrailingData. -/
theorem unmarshal_validation_witness :
    memoryCardUnmarshal (List.replicate 8192 0) =
        .error CardErr.invalidCapacity ∧
      memoryCardUnmarshal (((List.replicate 8192 0).set 35 4).set 37 7) =
        .error CardErr.invalidEncoding ∧
      memoryCardUnmarshal ((List.replicate 524289 0).set 35 4) =
        .error CardErr.trailingBytes := by
  refine ⟨?_, ?_, ?_⟩
  · exact (unmarshal_validation _
      (by simp only [List.length_replicate]; omega)).1 (by decide)
  · exact (unmarshal_validation _
      (by simp only [List.length_set, List.length_replicate]; omega)).2.1
      (by decide) (by decide)
  · refine (unmarshal_validation ((List.replicate 524289 0).set 35 4)
      (by simp only [List.length_set, List.length_replicate]; omega)).2.2.1
      (by decide) (by decide) ?_
    have hc : (headerParse (((List.replicate 524289 0).set 35 4).take 8192)).CardSize = 4 := by
      decide
    rw [hc]
    norm_num

/-! ## Reader / virtual filesystem (C8) -/

/-- One slot of the reader's lazily built lookup index
(`fileListEntry`). -/
structure FLEntry where
  name : List Nat
  fileIdx : Nat
  isDir : Bool
  isDup : Bool
deriving DecidableEq

/-- Faults of the lookup layer. -/
inductive OpenErr where
  | invalidPath
  | notExist
  | duplicateName
deriving DecidableEq

/-- The outcome of `Reader.Open`. -/
inductive OpenResult where
  | failure (e : OpenErr)
  | dirHandle
  | fileHandle (idx : Nat)
deriving DecidableEq

/-- `split`: strip one trailing slash, then split at the last slash;
no slash yields directory ".". -/
def splitName (n : List Nat) : List Nat × List Nat :=
  let n' := if n.getLast? = some 47 then n.dropLast else n
  match n'.reverse.findIdx? (· == 47) with
  | none => ([46], n')
  | some j =>
    let i := n'.length - 1 - j
    (n'.take i, n'.drop (i + 1))

/-- Byte-wise lexicographic order of Go strings. -/
def listLt : List Nat → List Nat → Bool
  | [], [] => false
  | [], _ :: _ => true
  | _ :: _, [] => false
  | a :: as, b :: bs =>
    if a < b then true else if b < a then false else listLt as bs

/-- `fileEntryLess`: parent path is the primary key, leaf name the
secondary. -/
def fileEntryLess (x y : List Nat) : Bool :=
  let xs := splitName x
  let ys := splitName y
  listLt xs.1 ys.1 || (xs.1 == ys.1 && listLt xs.2 ys.2)

/-- One step of `initFileList`: a name already indexed marks its (unique)
slot as a permanent duplicate (the Go code finds that slot through its
name-to-index map); a new name appends an unflagged slot. -/
def addFile (fl : List FLEntry) (p : Nat × List Nat) : List FLEntry :=
  match fl with
  | [] => [⟨p.2, p.1, false, false⟩]
  | e :: rest =>
    if e.name == p.2 then { e with isDup := true } :: rest
    else e :: addFile rest p

/-- The index list before sorting: every decoded file folded in, in
order. -/
def buildRaw (ps : List (Nat × List Nat)) : List FLEntry :=
  ps.foldl addFile []

/-- Insertion of the sort used on the index list. -/
def insertLe (le : FLEntry → FLEntry → Bool) (a : FLEntry) :
    List FLEntry → List FLEntry
  | [] => [a]
  | b :: bs => if le a b then a :: b :: bs else b :: insertLe le a bs

/-- The `sort.Slice` call on the index list (an insertion sort stands in
for Go's unstable sort; the index entries carry pairwise distinct names,
so any sort by `fileEntryLess` produces the same order of keys). -/
def sortFL (le : FLEntry → FLEntry → Bool) (l : List FLEntry) :
    List FLEntry :=
  l.foldr (insertLe le) []

/-- `initFileList`: fold all decoded names in, then sort. -/
def buildFileList (names : List (List Nat)) : List FLEntry :=
  sortFL (fun a b => !fileEntryLess b.name a.name) (buildRaw names.enum)

/-- `fs.ValidPath` (the UTF-8 validity check is omitted; names here are
byte lists): "." alone, or nonempty slash-separated segments none of which
is "." or "..". -/
def validPath (name : List Nat) : Bool :=
  if name == [46] then true
  else (name.splitOn 47).all fun seg =>
    !(seg.isEmpty || seg == [46] || seg == [46, 46])

/-- `sort.Search`'s binary search with explicit fuel; the interval halves
every round, so fuel `n` is enough for any search over `[0, n)`. -/
def sortSearchGo (f : Nat → Bool) : Nat → Nat → Nat → Nat
  | 0, i, _ => i
  | fuel + 1, i, j =>
    if i < j then
      let m := (i + j) / 2
      if f m then sortSearchGo f fuel i m else sortSearchGo f fuel (m + 1) j
    else i

/-- `sort.Search n f`. -/
def sortSearch (n : Nat) (f : Nat → Bool) : Nat := sortSearchGo f n 0 n

/-- The implicit root directory (`dotFile`, name "./"). -/
def dotEntry : FLEntry := ⟨[46, 47], 0, true, false⟩

/-- `Reader.openLookup`: binary-search the sorted index for an exact or
directory-prefix match. -/
def openLookup (fl : List FLEntry) (name : List Nat) : Option FLEntry :=
  if name == [46] then some dotEntry
  else
    let d := splitName name
    let i := sortSearch fl.length fun k =>
      let p := splitName (fl.getD k ⟨[], 0, false, false⟩).name
      listLt d.1 p.1 || (p.1 == d.1 && !listLt p.2 d.2)
    if i < fl.length then
      let fe := fl.getD i ⟨[], 0, false, false⟩
      if fe.name == name ||
          (fe.name.length == name.length + 1 &&
            (fe.name.getD name.length 0 == 47 &&
              fe.name.take name.length == name)) then
        some fe
      else none
    else none

/-- `fileListEntry.stat`: a slot flagged as duplicate always faults. -/
def statFL (e : FLEntry) : Except OpenErr Unit :=
  if e.isDup then .error .duplicateName else .ok ()

/-- `Reader.Open` over the decoded file-name list: validate the path, look
the name up, and return a directory handle or the found file's handle —
the duplicate flag is never consulted here. -/
def readerOpen (names : List (List Nat)) (name : List Nat) : OpenResult :=
  let fl := buildFileList names
  if !validPath name then .failure .invalidPath
  else
    match openLookup fl name with
    | none => .failure .notExist
    | some e => if e.isDir then .dirHandle else .fileHandle e.fileIdx

/-! ## Claim C8: duplicate flagging and the behaviour of Open -/

/-- Entries of `fl` named `m`, flags included. -/
def AllFlag (m : List Nat) (fl : List FLEntry) : Prop :=
  ∀ e ∈ fl, e.name = m → e.isDup = true

theorem cnt_zero_allFlag {m : List Nat} {fl : List FLEntry}
    (h : fl.countP (fun e => e.name == m) = 0) : AllFlag m fl := by
  intro e he hname
  have := List.countP_eq_zero.1 h e he
  simp [hname] at this

theorem addFile_countP (fl : List FLEntry) (p : Nat × List Nat)
    (m : List Nat) :
    (addFile fl p).countP (fun e => e.name == m) =
      if p.2 = m ∧ fl.countP (fun e => e.name == p.2) = 0 then
        fl.countP (fun e => e.name == m) + 1
      else fl.countP (fun e => e.name == m) := by
  induction fl with
  | nil =>
    by_cases hm : p.2 = m <;> simp [addFile, List.countP_cons, hm]
  | cons e rest ih =>
    by_cases he : e.name = p.2
    · have hcond : ¬(p.2 = m ∧ (e :: rest).countP (fun x => x.name == p.2) = 0) := by
        rintro ⟨-, hzero⟩
        simp [List.countP_cons, he] at hzero
      rw [if_neg hcond]
      have h1 : addFile (e :: rest) p = { e with isDup := true } :: rest := by
        simp [addFile, he]
      rw [h1]
      simp [List.countP_cons]
    · have hne : (e.name == p.2) = false := by simp [he]
      have h1 : addFile (e :: rest) p = e :: addFile rest p := by
        simp [addFile, hne]
      rw [h1]
      simp only [List.countP_cons, ih, hne, Bool.false_eq_true, if_false,
        Nat.add_zero]
      by_cases hc : p.2 = m ∧ rest.countP (fun x => x.name == p.2) = 0
      · rw [if_pos hc, if_pos hc]
        omega
      · rw [if_neg hc, if_neg hc]

theorem addFile_allFlag {m : List Nat} {fl : List FLEntry}
    (h : AllFlag m fl) (p : Nat × List Nat)
    (hp : p.2 = m → fl.countP (fun e => e.name == m) ≠ 0) :
    AllFlag m (addFile fl p) := by
  induction fl with
  | nil =>
    intro e he hname
    simp [addFile] at he
    subst he
    exact absurd (List.countP_nil _) (hp hname)
  | cons x rest ih =>
    intro e he hname
    by_cases hx : x.name = p.2
    · have hx' : (x.name == p.2) = true := by simp [hx]
      simp only [addFile, hx', if_true] at he
      rcases List.mem_cons.1 he with rfl | hmem
      · rfl
      · exact h e (List.mem_cons_of_mem x hmem) hname
    · have hx' : (x.name == p.2) = false := by simp [hx]
      simp only [addFile, hx', Bool.false_eq_true, if_false] at he
      rcases List.mem_cons.1 he with rfl | hmem
      · exact h e (List.mem_cons_self _ _) hname
      · refine ih (fun y hy hyn => h y (List.mem_cons_of_mem x hy) hyn) ?_ e hmem hname
        intro hpm
        have hxm : (x.name == m) = false := by
          simp only [← hpm]
          exact hx'
        have := hp hpm
        simpa [List.countP_cons, hxm] using this

theorem foldl_addFile_count_le_one {m : List Nat} :
    ∀ (ps : List (Nat × List Nat)) (fl : List FLEntry),
      fl.countP (fun e => e.name == m) ≤ 1 →
      (ps.foldl addFile fl).countP (fun e => e.name == m) ≤ 1 := by
  intro ps
  induction ps with
  | nil => intro fl h; exact h
  | cons p rest ih =>
    intro fl h
    refine ih (addFile fl p) ?_
    rw [addFile_countP]
    split
    · next hcond =>
      have : fl.countP (fun e => e.name == m) = 0 := by
        rw [← hcond.1]
        exact hcond.2
      omega
    · exact h

theorem foldl_addFile_count_mono {m : List Nat} :
    ∀ (ps : List (Nat × List Nat)) (fl : List FLEntry),
      1 ≤ fl.countP (fun e => e.name == m) →
      1 ≤ (ps.foldl addFile fl).countP (fun e => e.name == m) := by
  intro ps
  induction ps with
  | nil => intro fl h; exact h
  | cons p rest ih =>
    intro fl h
    refine ih (addFile fl p) ?_
    rw [addFile_countP]
    split <;> omega

theorem foldl_addFile_count_pos {m : List Nat} :
    ∀ (ps : List (Nat × List Nat)) (fl : List FLEntry),
      m ∈ ps.map Prod.snd →
      1 ≤ (ps.foldl addFile fl).countP (fun e => e.name == m) := by
  intro ps
  induction ps with
  | nil => intro fl h; cases h
  | cons p rest ih =>
    intro fl h
    rcases List.mem_map.1 h with ⟨q, hq, hqm⟩
    rcases List.mem_cons.1 hq with hq1 | hmem
    · have hpm : p.2 = m := by rw [← hq1]; exact hqm
      refine foldl_addFile_count_mono rest (addFile fl p) ?_
      rw [addFile_countP]
      split
      · omega
      · next hcond =>
        rcases Nat.eq_zero_or_pos (fl.countP (fun e => e.name == m)) with h0 | h1
        · exact absurd ⟨hpm, hpm ▸ h0⟩ hcond
        · exact h1
    · exact ih (addFile fl p) (List.mem_map.2 ⟨q, hmem, hqm⟩)

theorem foldl_addFile_allFlag {m : List Nat} :
    ∀ (ps : List (Nat × List Nat)) (fl : List FLEntry),
      AllFlag m fl → 1 ≤ fl.countP (fun e => e.name == m) →
      AllFlag m (ps.foldl addFile fl) := by
  intro ps
  induction ps with
  | nil => intro fl h _; exact h
  | cons p rest ih =>
    intro fl h hpos
    refine ih (addFile fl p) (addFile_allFlag h p (by omega)) ?_
    rw [addFile_countP]
    split <;> omega

theorem addFile_flags_unique {m : List Nat} {fl : List FLEntry}
    (hcnt : fl.countP (fun e => e.name == m) = 1) (p : Nat × List Nat)
    (hp : p.2 = m) : AllFlag m (addFile fl p) := by
  induction fl with
  | nil => simp [List.countP_nil] at hcnt
  | cons x rest ih =>
    by_cases hx : x.name = p.2
    · have hx' : (x.name == p.2) = true := by simp [hx]
      have hrest : rest.countP (fun e => e.name == m) = 0 := by
        have hxm : (x.name == m) = true := by simp [hx, hp]
        rw [List.countP_cons] at hcnt
        simp only [hxm, if_true] at hcnt
        omega
      intro e he hname
      simp only [addFile, hx', if_true] at he
      rcases List.mem_cons.1 he with rfl | hmem
      · rfl
      · exact absurd hname (by
          have := List.countP_eq_zero.1 hrest e hmem
          simpa using this)
    · have hx' : (x.name == p.2) = false := by simp [hx]
      have hxm : (x.name == m) = false := by
        rw [← hp]
        exact hx'
      have hrest : rest.countP (fun e => e.name == m) = 1 := by
        rw [List.countP_cons] at hcnt
        simpa only [hxm, Bool.false_eq_true, if_false, Nat.add_zero] using hcnt
      intro e he hname
      simp only [addFile, hx', Bool.false_eq_true, if_false] at he
      rcases List.mem_cons.1 he with rfl | hmem
      · exact absurd hname (by simpa using hxm)
      · exact ih hrest e hmem hname

theorem foldl_addFile_flag_seen {m : List Nat} :
    ∀ (ps : List (Nat × List Nat)) (fl : List FLEntry),
      fl.countP (fun e => e.name == m) = 1 → m ∈ ps.map Prod.snd →
      AllFlag m (ps.foldl addFile fl) := by
  intro ps
  induction ps with
  | nil => intro fl _ h; cases h
  | cons p rest ih =>
    intro fl hcnt h
    rcases List.mem_map.1 h with ⟨q, hq, hqm⟩
    rcases List.mem_cons.1 hq with hq1 | hmem
    · have hpm : p.2 = m := by rw [← hq1]; exact hqm
      refine foldl_addFile_allFlag rest (addFile fl p)
        (addFile_flags_unique hcnt p hpm) ?_
      rw [addFile_countP]
      split <;> omega
    · by_cases hpm : p.2 = m
      · refine foldl_addFile_allFlag rest (addFile fl p)
          (addFile_flags_unique hcnt p hpm) ?_
        rw [addFile_countP]
        split <;> omega
      · refine ih (addFile fl p) ?_ (List.mem_map.2 ⟨q, hmem, hqm⟩)
        rw [addFile_countP]
        rw [if_neg fun hcond => hpm hcond.1]
        exact hcnt

theorem foldl_addFile_dup {m : List Nat} :
    ∀ (ps : List (Nat × List Nat)) (fl : List FLEntry),
      fl.countP (fun e => e.name == m) ≤ 1 → AllFlag m fl →
      2 ≤ (ps.map Prod.snd).count m →
      AllFlag m (ps.foldl addFile fl) := by
  intro ps
  induction ps with
  | nil =>
    intro fl _ _ h2
    simp at h2
  | cons p rest ih =>
    intro fl hle hflag h2
    by_cases hpm : p.2 = m
    · rcases Nat.lt_or_ge (fl.countP (fun e => e.name == m)) 1 with h0 | h1
      · have hz : fl.countP (fun e => e.name == m) = 0 := by omega
        have hone : (addFile fl p).countP (fun e => e.name == m) = 1 := by
          rw [addFile_countP, if_pos ⟨hpm, hpm ▸ hz⟩, hz]
        have hmem : m ∈ rest.map Prod.snd := by
          have : 1 ≤ (rest.map Prod.snd).count m := by
            have : (p.2 :: rest.map Prod.snd).count m =
                (rest.map Prod.snd).count m + 1 := by
              simp [List.count_cons, hpm]
            simp only [List.map_cons] at h2
            omega
          exact List.count_pos_iff.1 (by omega)
        exact foldl_addFile_flag_seen rest (addFile fl p) hone hmem
      · have hone : fl.countP (fun e => e.name == m) = 1 := by omega
        refine foldl_addFile_allFlag rest (addFile fl p)
          (addFile_flags_unique hone p hpm) ?_
        rw [addFile_countP]
        split <;> omega
    · refine ih (addFile fl p) ?_ ?_ ?_
      · rw [addFile_countP]
        rw [if_neg fun hcond => hpm hcond.1]
        exact hle
      · exact addFile_allFlag hflag p fun hc => absurd hc hpm
      · have : (p.2 :: rest.map Prod.snd).count m =
            (rest.map Prod.snd).count m := by
          simp [List.count_cons, hpm]
        simp only [List.map_cons] at h2
        omega

theorem countP_insertLe (le : FLEntry → FLEntry → Bool) (a : FLEntry)
    (l : List FLEntry) (p : FLEntry → Bool) :
    (insertLe le a l).countP p = l.countP p + (if p a then 1 else 0) := by
  induction l with
  | nil => simp [insertLe, List.countP_cons]
  | cons b bs ih =>
    by_cases hle : le a b = true
    · simp only [insertLe, hle, if_true, List.countP_cons]
    · simp only [insertLe, hle, Bool.false_eq_true, if_false,
        List.countP_cons, ih]
      omega

theorem countP_sortFL (le : FLEntry → FLEntry → Bool) (l : List FLEntry)
    (p : FLEntry → Bool) : (sortFL le l).countP p = l.countP p := by
  induction l with
  | nil => rfl
  | cons b bs ih =>
    show (insertLe le b (sortFL le bs)).countP p = _
    rw [countP_insertLe, ih, List.countP_cons]

theorem mem_insertLe {le : FLEntry → FLEntry → Bool} {a x : FLEntry}
    {l : List FLEntry} : x ∈ insertLe le a l ↔ x = a ∨ x ∈ l := by
  induction l with
  | nil => simp [insertLe]
  | cons b bs ih =>
    by_cases hle : le a b = true
    · simp [insertLe, hle]
    · simp only [insertLe, hle, Bool.false_eq_true, if_false,
        List.mem_cons, ih]
      tauto

theorem mem_sortFL {le : FLEntry → FLEntry → Bool} {x : FLEntry}
    {l : List FLEntry} : x ∈ sortFL le l ↔ x ∈ l := by
  induction l with
  | nil => simp [sortFL]
  | cons b bs ih =>
    show x ∈ insertLe le b (sortFL le bs) ↔ _
    rw [mem_insertLe, List.mem_cons, ih]

theorem readerOpen_never_dup (names : List (List Nat)) (name : List Nat) :
    readerOpen names name ≠ .failure OpenErr.duplicateName := by
  intro h
  unfold readerOpen at h
  dsimp only at h
  split at h
  · exact absurd h (by simp)
  · split at h
    · exact absurd h (by simp)
    · split at h <;> exact absurd h (by simp)

/-- Counterexample for C8 as stated: a reader decoding two files both named
"a" (byte 97) does have duplicate entries, yet `Reader.Open "a"` does not
fail with a DuplicateName fault — it returns the handle of the first
file. -/
theorem reader_open_duplicate_counterexample :
    2 ≤ ([[97], [97]] : List (List Nat)).count [97] ∧
      readerOpen [[97], [97]] [97] = .fileHandle 0 ∧
      readerOpen [[97], [97]] [97] ≠ .failure OpenErr.duplicateName := by
  decide

/-- Claim C8 (amended): for every reader whose decoded file list contains a
name two or more times, the index holds exactly one slot with that name,
flagged as a permanent duplicate, and every `stat` of that slot faults with
DuplicateName (so directory listings fail); `Reader.Open`, however, never
returns a DuplicateName fault — the flag is not consulted there. -/
theorem reader_duplicate_flag (names : List (List Nat)) (m : List Nat)
    (hdup : 2 ≤ names.count m) :
    (buildFileList names).countP (fun e => e.name == m) = 1 ∧
      (∀ e ∈ buildFileList names, e.name = m →
        e.isDup = true ∧ statFL e = .error OpenErr.duplicateName) ∧
      (∀ name, readerOpen names name ≠ .failure OpenErr.duplicateName) := by
  have hsnd : names.enum.map Prod.snd = names := List.enum_map_snd names
  have hcount : 2 ≤ (names.enum.map Prod.snd).count m := by
    rw [hsnd]
    exact hdup
  have h1 : (buildRaw names.enum).countP (fun e => e.name == m) = 1 := by
    have hle := foldl_addFile_count_le_one (m := m) names.enum [] (by simp)
    have hge := foldl_addFile_count_pos (m := m) names.enum ([] : List FLEntry)
      (by rw [hsnd]; exact List.count_pos_iff.1 (by omega))
    have e1 : buildRaw names.enum = names.enum.foldl addFile [] := rfl
    rw [e1]
    omega
  have hflag : AllFlag m (buildRaw names.enum) :=
    foldl_addFile_dup (m := m) names.enum [] (by simp)
      (fun e he => absurd he (by simp)) hcount
  refine ⟨?_, ?_, fun name => readerOpen_never_dup names name⟩
  · show (sortFL _ (buildRaw names.enum)).countP _ = 1
    rw [countP_sortFL]
    exact h1
  · intro e he hname
    have hmem : e ∈ buildRaw names.enum := mem_sortFL.1 he
    have hd := hflag e hmem hname
    exact ⟨hd, by simp [statFL, hd]⟩

/-- Witness for the amended C8 at the concrete duplicated reader. -/
theorem reader_duplicate_flag_witness :
    (buildFileList [[97], [97]]).countP (fun e => e.name == [97]) = 1 ∧
      (∀ e ∈ buildFileList [[97], [97]], e.name = [97] →
        e.isDup = true ∧ statFL e = .error OpenErr.duplicateName) ∧
      (∀ name, readerOpen [[97], [97]] name ≠
        .failure OpenErr.duplicateName) :=
  reader_duplicate_flag [[97], [97]] [97] (by decide)

/-- Witness for C5: the input [0xFF, 0xFF] drives the normal digest to
0xFFFF and [0x00, 0x00] drives the inverted digest to 0xFFFF; both are
clamped to 0x0000. -/
theorem checksum_never_ffff_witness :
    (checksum [0xff, 0xff]).1 = [0x00, 0x00] ∧
      (checksum [0x00, 0x00]).2 = [0x00, 0x00] :=
  ⟨(checksum_never_ffff [0xff, 0xff]).2.2.1 (by decide),
   (checksum_never_ffff [0x00, 0x00]).2.2.2 (by decide)⟩
